import Mathlib

/-!
# whoosh: a shallow embedding of `projects/2a_shell/whoosh.c`

C strings are lists of characters (the bytes before the terminating NUL),
`int` values are `Int`, fixed arrays of string slots are lists of strings.
Calls into the C library (`strsep`, `strncmp`, `strcpy`, `strlcpy`, `strlcat`)
are modelled by their documented behaviour.  System calls are modelled by an
environment of oracles and a trace of the calls that were made.
-/

namespace Whoosh

/-- The contents of a NUL-terminated C string, terminator excluded. -/
abbrev Str := List Char

/-- The constant `static const int MAX_LINE_LEN = 128;`. -/
def MAX_LINE_LEN : Nat := 128

/-- The constant `static const char REDIRECT[] = ">";`. -/
def REDIRECT : Str := ['>']

/-- The constant `static const char ARG_DELIM[] = " \t";`. -/
def ARG_DELIM : Str := [' ', '\t']

/-- Bytes in one slot of the arrays made by
`alloc_str_array(strs, MAX_LINE_LEN + 1, MAX_LINE_LEN)`: each slot is
`calloc(str_len + 1, 1)`, terminator included. -/
def SLOT_BYTES : Nat := MAX_LINE_LEN + 1 + 1

/-! ## C library -/

/-- The call `strsep(&next, delim)` on a non-NULL `next`: the returned token is the text
before the first delimiter; `next` becomes the text after that delimiter, or
NULL (`none`) when there is no delimiter. -/
def strsep : Str → Str → Str × Option Str
  | [], _ => ([], none)
  | c :: cs, delim =>
    if c ∈ delim then ([], some cs)
    else ((c :: (strsep cs delim).1), (strsep cs delim).2)

/-- The call `strncmp(a, b, n)`: compares at most `n` characters, stopping at the first
difference or at the terminator of both; only the sign of the result is
specified, so the model returns `0`, `-1` or `1`. -/
def strncmp : Str → Str → Nat → Int
  | _, _, 0 => 0
  | [], [], _ + 1 => 0
  | [], _ :: _, _ + 1 => -1
  | _ :: _, [], _ + 1 => 1
  | a :: as, b :: bs, n + 1 =>
    if a = b then strncmp as bs n else if a < b then -1 else 1

/-- The call `strlcpy(dst, src, size)`: the new contents of `dst` (at most `size - 1`
characters of `src`) and the return value `strlen(src)`. -/
def strlcpy (dst src : Str) (size : Nat) : Str × Nat :=
  if size = 0 then (dst, src.length) else (src.take (size - 1), src.length)

/-- The call `strlcat(dst, src, size)`: appends as much of `src` as fits in `size` bytes
and returns the length of the string it tried to create. -/
def strlcat (dst src : Str) (size : Nat) : Str × Nat :=
  if size ≤ dst.length then (dst, size + src.length)
  else (dst ++ src.take (size - 1 - dst.length), dst.length + src.length)

/-- The element `arr[i]` for a C `int` index. -/
def slot (arr : List Str) (i : Int) : Str := arr.getD i.toNat []

/-! ## Tokenizer -/

/-- The `while ((token = strsep(&next, ARG_DELIM)) != NULL)` loop of `tokenise`.
`none` is an out-of-bounds `strcpy` into the token array (or no fuel left). -/
def tokeniseLoop : Nat → Option Str → List Str → Int → Option (List Str × Int)
  | 0, _, _, _ => none
  | _ + 1, none, tokens, numtokens => some (tokens, numtokens)
  | fuel + 1, some s, tokens, numtokens =>
    let token := (strsep s ARG_DELIM).1
    let next := (strsep s ARG_DELIM).2
    if token ≠ [] then
      if numtokens.toNat < tokens.length ∧ token.length < SLOT_BYTES then
        tokeniseLoop fuel next (tokens.set numtokens.toNat token) (numtokens + 1)
      else none
    else tokeniseLoop fuel next tokens numtokens

/-- Function `int tokenise(char *input, int max_line_len, char *tokens[])`: the token
array after the call and the returned `numtokens`; `none` when a `strcpy`
writes out of bounds (`inputcpy` has `max_line_len` bytes). -/
def tokenise (input : Str) (max_line_len : Nat) (tokens : List Str) :
    Option (List Str × Int) :=
  if input.length < max_line_len then
    tokeniseLoop (input.length + 2) (some input) tokens 0
  else none

/-- The tokens of a line as the specification describes them: the line split at
every space and tab, empty fields dropped. -/
def splitFields (line : Str) : List Str :=
  (line.splitOnP (fun c => c == ' ' || c == '\t')).filter (fun f => f ≠ [])

/-! ## Search path -/

/-- The search path `path_t`: `MAX_LINE_LEN` string slots `pathdirs` and an `int size`. -/
structure path_t where
  pathdirs : List Str
  size : Int
deriving DecidableEq

/-- The search path proper: the first `size` slots of `pathdirs`. -/
def path_t.entries (path : path_t) : List Str := path.pathdirs.take path.size.toNat

/-- The call `alloc_str_array(strs, str_len, num_strs)`: `num_strs` zeroed buffers, that
is empty strings (`calloc` is taken to succeed). -/
def alloc_str_array (num_strs : Nat) : List Str := List.replicate num_strs []

/-- Function `void init_path(path_t *path)`. -/
def init_path : path_t :=
  { pathdirs := (alloc_str_array MAX_LINE_LEN).set 0 ['/', 'b', 'i', 'n'], size := 1 }

/-- The `for (int idx = 1; idx < numtokens; idx++)` loop of `setpath`; the first
argument counts the iterations left. -/
def setpathLoop (tokens : List Str) : Nat → Int → List Str → List Str
  | 0, _, pathdirs => pathdirs
  | iters + 1, idx, pathdirs =>
    setpathLoop tokens iters (idx + 1) (pathdirs.set (idx - 1).toNat (slot tokens idx))

/-- Function `void setpath(char *tokens[], int numtokens, path_t *path)`. -/
def setpath (tokens : List Str) (numtokens : Int) (path : path_t) : path_t :=
  { pathdirs := setpathLoop tokens (numtokens - 1).toNat 1 path.pathdirs,
    size := numtokens - 1 }

/-! ## Redirection parser -/

/-- The out-parameters of `getredirect`. -/
structure Redirect where
  numcmdtokens : Int
  redirect_output : Int
  outfile : Str
  errfile : Str
deriving DecidableEq

/-- The first loop of `getredirect`: `true` when it hits `return -1`, that is
when some token equal to `REDIRECT` sits at an index other than
`numtokens - 2`.  `sizeof(REDIRECT)` is 2. -/
def redirectMisplaced (tokens : List Str) (numtokens : Int) : Nat → Int → Bool
  | 0, _ => false
  | iters + 1, tidx =>
    if strncmp (slot tokens tidx) REDIRECT 2 = 0 ∧ tidx ≠ numtokens - 2 then true
    else redirectMisplaced tokens numtokens iters (tidx + 1)

/-- Function `int getredirect(tokens, numtokens, &numcmdtokens, &redirect_output,
outfile, errfile, file_szs)`: the return code and the out-parameters after the
call, `r` being their contents before it.  The `||` chain stops at the first
copy that does not fit. -/
def getredirect (tokens : List Str) (numtokens : Int) (r : Redirect) (file_szs : Nat) :
    Int × Redirect :=
  if redirectMisplaced tokens numtokens numtokens.toNat 0 then (-1, r)
  else if numtokens > 2 ∧ strncmp (slot tokens (numtokens - 2)) REDIRECT 2 = 0 then
    let redirect_base := slot tokens (numtokens - 1)
    let o1 := strlcpy r.outfile redirect_base file_szs
    if o1.2 ≥ file_szs then
      (-1, { numcmdtokens := numtokens - 2, redirect_output := 1,
             outfile := o1.1, errfile := r.errfile })
    else
      let o2 := strlcat o1.1 ['.', 'o', 'u', 't'] file_szs
      if o2.2 ≥ file_szs then
        (-1, { numcmdtokens := numtokens - 2, redirect_output := 1,
               outfile := o2.1, errfile := r.errfile })
      else
        let e1 := strlcpy r.errfile redirect_base file_szs
        if e1.2 ≥ file_szs then
          (-1, { numcmdtokens := numtokens - 2, redirect_output := 1,
                 outfile := o2.1, errfile := e1.1 })
        else
          let e2 := strlcat e1.1 ['.', 'e', 'r', 'r'] file_szs
          (if e2.2 ≥ file_szs then -1 else 0,
            { numcmdtokens := numtokens - 2, redirect_output := 1,
              outfile := o2.1, errfile := e2.1 })
  else (0, { r with numcmdtokens := numtokens, redirect_output := 0 })

/-! ## Search-path resolver -/

/-- Function `void buildpath(char *dir, char *file, int dircapacity)`: the contents of
`dir` after the call; `none` when `error_and_exit()` is called. -/
def buildpath (dir file : Str) (dircapacity : Nat) : Option Str :=
  let dirlen := dir.length
  if dirlen > 0 ∧ dir.getD (dirlen - 1) '/' ≠ '/' then
    let d1 := strlcat dir ['/'] dircapacity
    if d1.2 ≥ dircapacity then none
    else
      let d2 := strlcat d1.1 file dircapacity
      if d2.2 ≥ dircapacity then none else some d2.1
  else
    let d2 := strlcat dir file dircapacity
    if d2.2 ≥ dircapacity then none else some d2.1

/-- The `for (int pidx = 0; pidx < path->size; pidx++)` loop of `getcmdpath`.
`stat p` tells whether `stat(p, &st)` returns 0.  The result is `foundpath`
with the final `currpath`, or `none` when `error_and_exit()` is called, paired
with the paths handed to `stat`, in order. -/
def getcmdpathLoop (stat : Str → Bool) (cmd : Str) (pathdirs : List Str) (dstsize : Nat) :
    Nat → Int → Str → Option (Bool × Str) × List Str
  | 0, _, currpath => (some (false, currpath), [])
  | iters + 1, pidx, currpath =>
    let c := strlcpy currpath (slot pathdirs pidx) dstsize
    if c.2 ≥ dstsize then (none, [])
    else
      match buildpath c.1 cmd dstsize with
      | none => (none, [])
      | some p =>
        if stat p then (some (true, p), [p])
        else
          ((getcmdpathLoop stat cmd pathdirs dstsize iters (pidx + 1) p).1,
            p :: (getcmdpathLoop stat cmd pathdirs dstsize iters (pidx + 1) p).2)

/-- Function `int getcmdpath(char *cmd, path_t *path, char *dst, size_t dstsize)`: the
return code with the contents of `dst` after the call, or `none` when
`error_and_exit()` is called; and the paths handed to `stat`.  `currpath` is an
uninitialised local, read only after `strlcpy` has filled it. -/
def getcmdpath (stat : Str → Bool) (cmd : Str) (path : path_t) (dst : Str) (dstsize : Nat) :
    Option (Int × Str) × List Str :=
  let l := getcmdpathLoop stat cmd path.pathdirs dstsize path.size.toNat 0 []
  match l.1 with
  | none => (none, l.2)
  | some (foundpath, currpath) =>
    if foundpath then
      let d := strlcpy dst currpath dstsize
      if d.2 ≥ dstsize then (none, l.2) else (some (0, d.1), l.2)
    else (some (-1, dst), l.2)

/-- The path probed for a directory of the search path: the directory, `/`
unless the directory is empty or already ends in `/`, and the command name. -/
def candidate (dir name : Str) : Str :=
  if dir = [] ∨ dir.getLast? = some '/' then dir ++ name else dir ++ ['/'] ++ name

/-- The candidate path as the specification words it: the separator is left
out exactly when the directory already ends with one. -/
def specCandidate (dir name : Str) : Str :=
  if dir.getLast? = some '/' then dir ++ name else dir ++ ['/'] ++ name

/-! ## The process and its surroundings -/

/-- What the operating system answers during one command. -/
structure Env where
  /-- whether `stat(p, &st)` returns 0 -/
  stat : Str → Bool
  /-- the result of `getenv("HOME")`, `none` for NULL -/
  home : Option Str
  /-- the call `chdir(dir)` from a working directory: the new one, or `none` for `rc < 0` -/
  chdir : Str → Str → Option Str
  /-- whether `fork()` creates a child -/
  fork : Bool
  /-- the constant `MAXPATHLEN` of `<sys/param.h>` -/
  maxpathlen : Nat

/-- The calls the shell makes that can be seen from outside. -/
inductive Event
  /-- a call of `print_error()`: one `ERROR_MSG` on standard error -/
  | error
  /-- a `printf` on standard output -/
  | print (s : Str)
  /-- a call of `stat(p, &st)` -/
  | stat (p : Str)
  /-- a call of `chdir(dir)` -/
  | chdir (dir : Str)
  /-- a child created by `fork()`: the image and vector of its `execv`, and the
  redirection it sets up first; a NULL pointer of `argv` is `none` -/
  | spawn (cmdpath : Str) (argv : List (Option Str)) (redirect_output : Int)
      (outfile errfile : Str)
deriving DecidableEq

/-- The state of the shell process apart from the token array. -/
structure World where
  path : path_t
  cwd : Str
  /-- the calls made so far, oldest first -/
  trace : List Event
  /-- the status given to `exit`, once it has been called -/
  exited : Option Int
deriving DecidableEq

/-- Function `void print_error()`. -/
def print_error (w : World) : World := { w with trace := w.trace ++ [Event.error] }

/-- Function `void error_and_exit()`. -/
def error_and_exit (w : World) : World := { print_error w with exited := some 1 }

/-- The tail of `changedirectory` from `int rc = chdir(targetdir);` on. -/
def changedirectoryTo (env : Env) (targetdir : Str) (w : World) : World :=
  match env.chdir w.cwd targetdir with
  | some cwd => { w with cwd := cwd, trace := w.trace ++ [Event.chdir targetdir] }
  | none =>
    print_error { w with trace := w.trace ++
      [Event.chdir targetdir, Event.print ("Error: ".toList ++ targetdir ++ ['\n'])] }

/-- Function `void changedirectory(char *tokens[], int numtokens)`. -/
def changedirectory (env : Env) (tokens : List Str) (numtokens : Int) (w : World) : World :=
  if numtokens = 1 then
    match env.home with
    | none => print_error w
    | some targetdir => changedirectoryTo env targetdir w
  else changedirectoryTo env (slot tokens 1) w

/-- The `for (int tidx = 1; tidx < numcmdtokens; tidx++)` loop of `runprog`. -/
def argvLoop (tokens : List Str) (argv_str_cap : Nat) : Nat → Int → List Str → List Str
  | 0, _, argv => argv
  | iters + 1, tidx, argv =>
    argvLoop tokens argv_str_cap iters (tidx + 1)
      (argv.set tidx.toNat (strlcpy (slot argv tidx) (slot tokens tidx) argv_str_cap).1)

/-- The vector built by `runprog`: `argv_sz` fresh buffers, the resolved path in
the first, the command tokens after it, and NULL stored at `numcmdtokens`. -/
def buildargv (tokens : List Str) (numcmdtokens : Int) (cmdpath : Str) : List (Option Str) :=
  let argv_sz := numcmdtokens + 1
  let argv_str_cap := MAX_LINE_LEN + 1
  let argv0 := alloc_str_array argv_sz.toNat
  let argv1 := argv0.set 0 (strlcpy (slot argv0 0) cmdpath argv_str_cap).1
  let argv2 := argvLoop tokens argv_str_cap (numcmdtokens - 1).toNat 1 argv1
  (argv2.map some).set numcmdtokens.toNat none

/-- Function `void runprog(char *tokens[], int numtokens, path_t *path)`.  The locals
`numcmdtokens`, `redirect_output`, `outfile`, `errfile` and `cmdpath` start
uninitialised; they are read only after `getredirect` and `getcmdpath` have
returned 0 and written them. -/
def runprog (env : Env) (tokens : List Str) (numtokens : Int) (w : World) : World :=
  let file_szs := MAX_LINE_LEN
  let rd := getredirect tokens numtokens
    { numcmdtokens := 0, redirect_output := 0, outfile := [], errfile := [] } file_szs
  if rd.1 = -1 then print_error w
  else
    let cmd := slot tokens 0
    let cmdpath_sz := env.maxpathlen + 1
    let gp := getcmdpath env.stat cmd w.path [] cmdpath_sz
    let w1 := { w with trace := w.trace ++ gp.2.map Event.stat }
    match gp.1 with
    | none => error_and_exit w1
    | some (getcmdpath_rc, cmdpath) =>
      if getcmdpath_rc = -1 then print_error w1
      else
        let argv := buildargv tokens rd.2.numcmdtokens cmdpath
        if env.fork then
          { w1 with trace := w1.trace ++
              [Event.spawn cmdpath argv rd.2.redirect_output rd.2.outfile rd.2.errfile] }
        else print_error w1

/-- Function `void runcmd(char *tokens[], int numtokens, path_t *path)`. -/
def runcmd (env : Env) (tokens : List Str) (numtokens : Int) (w : World) : World :=
  let cmd := slot tokens 0
  if strncmp cmd ['e', 'x', 'i', 't'] MAX_LINE_LEN = 0 then
    { w with exited := some 0 }
  else if strncmp cmd ['p', 'w', 'd'] MAX_LINE_LEN = 0 then
    { w with trace := w.trace ++ [Event.print (w.cwd ++ ['\n'])] }
  else if strncmp cmd ['c', 'd'] MAX_LINE_LEN = 0 then
    changedirectory env tokens numtokens w
  else if strncmp cmd ['p', 'a', 't', 'h'] MAX_LINE_LEN = 0 then
    { w with path := setpath tokens numtokens w.path }
  else
    runprog env tokens numtokens w

/-- The calls only the process launcher makes: probing a candidate path and
creating a child. -/
def Event.isLaunch : Event → Bool
  | Event.stat _ => true
  | Event.spawn _ _ _ _ _ => true
  | _ => false

/-! ## Session loop -/

/-- The token array of `main` together with the rest of the process state. -/
structure Shell where
  tokens : List Str
  world : World

/-- The state of `main` on entering its loop. -/
def startup (cwd : Str) : Shell :=
  { tokens := alloc_str_array MAX_LINE_LEN,
    world := { path := init_path, cwd := cwd, trace := [], exited := none } }

/-- One pass through the body of the `for (;;)` loop of `main`, given what
`read_input_line` returned and left in `input`; `none` when `tokenise` writes
out of bounds.  Nothing runs once the process has exited. -/
def mainBody (env : Env) (sh : Shell) (readrc : Int) (input : Str) : Option Shell :=
  match sh.world.exited with
  | some _ => some sh
  | none =>
    let w := { sh.world with trace := sh.world.trace ++ [Event.print "whoosh> ".toList] }
    if readrc = -1 then some { sh with world := print_error w }
    else
      match tokenise input MAX_LINE_LEN sh.tokens with
      | none => none
      | some (tokens, numtokens) =>
        some { tokens := tokens, world := runcmd env tokens numtokens w }

/-- A run of `main`: successive passes through its loop, each with its own
answers of the operating system and its own result of `read_input_line`. -/
def session (sh : Shell) : List (Env × Int × Str) → Option Shell
  | [] => some sh
  | (env, readrc, input) :: rest =>
    match mainBody env sh readrc input with
    | none => none
    | some sh1 => session sh1 rest

/-- The state of the arrays that every pass through the loop of `main` keeps:
both have their `MAX_LINE_LEN` slots, `size` stays within them, and every entry
of the search path is non-empty and free of delimiters. -/
def Shell.wellFormed (sh : Shell) : Prop :=
  sh.tokens.length = MAX_LINE_LEN ∧
  sh.world.path.pathdirs.length = MAX_LINE_LEN ∧
  sh.world.path.size ≤ MAX_LINE_LEN ∧
  ∀ d ∈ sh.world.path.entries, d ≠ [] ∧ ∀ c ∈ d, c ∉ ARG_DELIM

/-! ## Line reader

Standard input is the list of characters still to be read, end of input being
the end of the list; read errors and NUL bytes in the input are not modelled. -/

/-- An operating system in which every path exists and `fork` succeeds. -/
def sampleEnv : Env :=
  { stat := fun _ => true, home := none, chdir := fun _ dir => some dir, fork := true,
    maxpathlen := 1024 }

/-- The process state on entering the loop of `main`, started in `/`. -/
def sampleWorld : World := (startup ['/']).world

/-- A directory name of 122 characters, short enough to be set with `path`. -/
def longDir : Str := '/' :: List.replicate 121 'd'

/-! ## Facts about the C library model -/

theorem strsep_fst_length (s delim : Str) : (strsep s delim).1.length ≤ s.length := by
  induction s with
  | nil => simp [strsep]
  | cons c cs ih =>
    by_cases h : c ∈ delim
    · simp [strsep, h]
    · simp [strsep, h]; exact ih

theorem strsep_snd_length (s delim r : Str) (h : (strsep s delim).2 = some r) :
    (strsep s delim).1.length + 1 + r.length = s.length := by
  induction s with
  | nil => simp [strsep] at h
  | cons c cs ih =>
    by_cases hc : c ∈ delim
    · simp [strsep, hc] at h ⊢
      subst h; omega
    · simp [strsep, hc] at h ⊢
      have := ih h
      omega

theorem mem_ARG_DELIM (c : Char) :
    c ∈ ARG_DELIM ↔ (c == ' ' || c == '\t') = true := by
  simp [ARG_DELIM]

/-- One `strsep` call peels the first field off the split of the line. -/
theorem splitOnP_strsep (s : Str) :
    s.splitOnP (fun c => c == ' ' || c == '\t') =
      (strsep s ARG_DELIM).1 ::
        (match (strsep s ARG_DELIM).2 with
          | none => []
          | some r => r.splitOnP (fun c => c == ' ' || c == '\t')) := by
  induction s with
  | nil => simp [strsep, List.splitOnP_nil]
  | cons c cs ih =>
    rw [List.splitOnP_cons]
    by_cases hc : c ∈ ARG_DELIM
    · have hc2 := (mem_ARG_DELIM c).1 hc
      simp only [strsep, hc, if_true]
      rw [if_pos hc2]
    · have hc2 : ¬ ((c == ' ' || c == '\t') = true) := fun h => hc ((mem_ARG_DELIM c).2 h)
      simp only [strsep, hc, if_false]
      rw [if_neg hc2, ih]
      simp

theorem splitFields_strsep (s : Str) :
    splitFields s =
      (if (strsep s ARG_DELIM).1 ≠ [] then [(strsep s ARG_DELIM).1] else []) ++
        (match (strsep s ARG_DELIM).2 with
          | none => []
          | some r => splitFields r) := by
  unfold splitFields
  rw [splitOnP_strsep s]
  cases hn : (strsep s ARG_DELIM).2 with
  | none =>
    by_cases ht : (strsep s ARG_DELIM).1 = [] <;> simp [List.filter_cons, ht]
  | some r =>
    by_cases ht : (strsep s ARG_DELIM).1 = [] <;> simp [List.filter_cons, ht]

theorem take_set_succ (l : List Str) (n : Nat) (t : Str) (h : n < l.length) :
    (l.set n t).take (n + 1) = l.take n ++ [t] := by
  induction l generalizing n with
  | nil => simp at h
  | cons a as ih =>
    cases n with
    | zero => simp
    | succ m =>
      simp only [List.length_cons, Nat.add_lt_add_iff_right] at h
      simp [List.set, List.take, ih m h]

/-- The tokenise loop, run with enough fuel on a line that fits the token array,
stores the non-empty fields of the line from slot `n` on and leaves the other
slots alone. -/
theorem tokeniseLoop_spec (fuel : Nat) : ∀ (s : Str) (tokens : List Str) (n : Nat),
    s.length + 2 ≤ fuel → n + s.length ≤ tokens.length → s.length < SLOT_BYTES →
    ∃ tokens', tokeniseLoop fuel (some s) tokens (n : Int)
        = some (tokens', ((n + (splitFields s).length : Nat) : Int)) ∧
      tokens'.length = tokens.length ∧
      tokens'.take (n + (splitFields s).length) = tokens.take n ++ splitFields s ∧
      tokens'.drop (n + (splitFields s).length) = tokens.drop (n + (splitFields s).length) := by
  induction fuel with
  | zero => intro s tokens n h; omega
  | succ fuel ih =>
    intro s tokens n hfuel hfit hcap
    have hlen1 := strsep_fst_length s ARG_DELIM
    rw [splitFields_strsep s]
    cases hn : (strsep s ARG_DELIM).2 with
    | none =>
      have hstop : ∀ (tk : List Str) (m : Int), tokeniseLoop fuel none tk m = some (tk, m) := by
        intro tk m
        cases fuel with
        | zero => omega
        | succ f => simp [tokeniseLoop]
      by_cases ht : (strsep s ARG_DELIM).1 = []
      · refine ⟨tokens, ?_, rfl, ?_, ?_⟩
        · simp [tokeniseLoop, ht, hn, hstop]
        · simp [ht]
        · simp [ht]
      · have hpos : 0 < (strsep s ARG_DELIM).1.length := List.length_pos.2 ht
        have hn1 : n < tokens.length := by omega
        refine ⟨tokens.set n (strsep s ARG_DELIM).1, ?_, by simp, ?_, ?_⟩
        · have hc : (strsep s ARG_DELIM).1.length < SLOT_BYTES := by omega
          simp [tokeniseLoop, ht, hn, hstop, hn1, hc]
        · simp [ht, take_set_succ _ _ _ hn1]
        · simp [ht, List.drop_set]
    | some r =>
      have hlen2 := strsep_snd_length s ARG_DELIM r hn
      by_cases ht : (strsep s ARG_DELIM).1 = []
      · obtain ⟨tk, h1, h2, h3, h4⟩ := ih r tokens n (by omega) (by omega) (by omega)
        refine ⟨tk, ?_, h2, ?_, ?_⟩
        · simp [tokeniseLoop, ht, hn, h1]
        · simpa [ht] using h3
        · simpa [ht] using h4
      · have hpos : 0 < (strsep s ARG_DELIM).1.length := List.length_pos.2 ht
        have hn1 : n < tokens.length := by omega
        have hc : (strsep s ARG_DELIM).1.length < SLOT_BYTES := by omega
        obtain ⟨tk, h1, h2, h3, h4⟩ :=
          ih r (tokens.set n (strsep s ARG_DELIM).1) (n + 1) (by omega)
            (by simp; omega) (by omega)
        refine ⟨tk, ?_, by simpa using h2, ?_, ?_⟩
        · simp only [tokeniseLoop, ne_eq, ht, not_false_eq_true, if_true, Int.toNat_ofNat, hn1, hc,
            and_self, hn]
          rw [show ((n : Int) + 1) = ((n + 1 : Nat) : Int) by simp, h1]
          simp [Nat.add_assoc, Nat.add_comm 1]
        · simp only [ne_eq, ht, not_false_eq_true, if_true, List.length_append, List.length_cons,
            List.length_nil]
          rw [show n + (0 + 1 + (splitFields r).length) = n + 1 + (splitFields r).length by omega,
            h3, take_set_succ _ _ _ hn1]
          simp
        · simp only [ne_eq, ht, not_false_eq_true, if_true, List.length_append, List.length_cons,
            List.length_nil]
          rw [show n + (0 + 1 + (splitFields r).length) = n + 1 + (splitFields r).length by omega,
            h4, List.drop_set]
          simp only [ite_eq_left_iff, not_lt]
          intro hle; omega

theorem splitFields_of_all_delim (line : Str) (h : ∀ c ∈ line, c = ' ' ∨ c = '\t') :
    splitFields line = [] := by
  induction line with
  | nil => rw [splitFields_strsep]; simp [strsep]
  | cons c cs ih =>
    have hc : c ∈ ARG_DELIM := by
      rcases h c (List.mem_cons_self c cs) with h1 | h1 <;> simp [ARG_DELIM, h1]
    rw [splitFields_strsep]
    simp only [strsep, hc, if_true]
    simpa using ih (fun x hx => h x (List.mem_cons_of_mem c hx))

theorem tokenise_eq (line : Str) (tokens : List Str)
    (hline : line.length < MAX_LINE_LEN) (htok : tokens.length = MAX_LINE_LEN) :
    ∃ tokens', tokenise line MAX_LINE_LEN tokens
        = some (tokens', ((splitFields line).length : Int)) ∧
      tokens'.length = tokens.length ∧
      tokens'.take (splitFields line).length = splitFields line ∧
      tokens'.drop (splitFields line).length = tokens.drop (splitFields line).length := by
  have hcap : line.length < SLOT_BYTES := by
    simp only [SLOT_BYTES, MAX_LINE_LEN] at hline ⊢; omega
  obtain ⟨tk, h1, h2, h3, h4⟩ :=
    tokeniseLoop_spec (line.length + 2) line tokens 0 (Nat.le_refl _) (by omega) hcap
  refine ⟨tk, ?_, h2, ?_, ?_⟩
  · simp only [tokenise, hline, if_true]
    simpa using h1
  · simpa using h3
  · simpa using h4

theorem strncmp_eq_zero_iff (a b : Str) (n : Nat) :
    strncmp a b n = 0 ↔ a.take n = b.take n := by
  induction n generalizing a b with
  | zero => simp [strncmp]
  | succ n ih =>
    cases a with
    | nil => cases b <;> simp [strncmp]
    | cons x xs =>
      cases b with
      | nil => simp [strncmp]
      | cons y ys =>
        by_cases hxy : x = y
        · simp [strncmp, hxy, ih]
        · by_cases hlt : x < y <;> simp [strncmp, hxy, hlt]

theorem strncmp_REDIRECT (t : Str) : strncmp t REDIRECT 2 = 0 ↔ t = REDIRECT := by
  rw [strncmp_eq_zero_iff]
  constructor
  · intro h
    match t, h with
    | [], h => simp [REDIRECT] at h
    | [c], h => simpa [REDIRECT] using h
    | c :: d :: rest, h => simp [REDIRECT] at h
  · intro h; rw [h]

/-- Comparing over `MAX_LINE_LEN` characters with a shorter name is equality. -/
theorem strncmp_name (t name : Str) (hname : name.length < MAX_LINE_LEN) :
    strncmp t name MAX_LINE_LEN = 0 ↔ t = name := by
  rw [strncmp_eq_zero_iff]
  constructor
  · intro h
    rw [List.take_of_length_le (Nat.le_of_lt hname)] at h
    by_cases ht : t.length ≤ MAX_LINE_LEN
    · rwa [List.take_of_length_le ht] at h
    · have hl := congrArg List.length h
      rw [List.length_take] at hl
      omega
  · intro h; rw [h]

theorem redirectMisplaced_iff (tokens : List Str) (numtokens : Int) (iters : Nat) :
    ∀ tidx : Int, redirectMisplaced tokens numtokens iters tidx = true ↔
      ∃ j : Nat, j < iters ∧ slot tokens (tidx + j) = REDIRECT ∧ tidx + j ≠ numtokens - 2 := by
  induction iters with
  | zero => intro tidx; simp [redirectMisplaced]
  | succ iters ih =>
    intro tidx
    simp only [redirectMisplaced, strncmp_REDIRECT]
    by_cases h0 : slot tokens tidx = REDIRECT ∧ tidx ≠ numtokens - 2
    · simp only [h0, ne_eq, not_false_eq_true, and_self, if_true, true_iff]
      exact ⟨0, Nat.succ_pos _, by simpa using h0.1, by simpa using h0.2⟩
    · rw [if_neg h0, ih (tidx + 1)]
      constructor
      · rintro ⟨j, hj, h1, h2⟩
        refine ⟨j + 1, Nat.succ_lt_succ hj, ?_, ?_⟩
        · rw [show tidx + ((j + 1 : Nat) : Int) = tidx + 1 + (j : Int) by push_cast; ring]
          exact h1
        · rw [show tidx + ((j + 1 : Nat) : Int) = tidx + 1 + (j : Int) by push_cast; ring]
          exact h2
      · rintro ⟨j, hj, h1, h2⟩
        cases j with
        | zero => exact absurd ⟨by simpa using h1, by simpa using h2⟩ h0
        | succ k =>
          refine ⟨k, Nat.lt_of_succ_lt_succ hj, ?_, ?_⟩
          · rw [show tidx + 1 + (k : Int) = tidx + ((k + 1 : Nat) : Int) by push_cast; ring]
            exact h1
          · rw [show tidx + 1 + (k : Int) = tidx + ((k + 1 : Nat) : Int) by push_cast; ring]
            exact h2

/-- The first loop of `getredirect` fires exactly when a redirection token sits
at an index of the sequence other than `numtokens - 2`. -/
theorem redirectMisplaced_getredirect (tokens : List Str) (numtokens : Int) :
    redirectMisplaced tokens numtokens numtokens.toNat 0 = true ↔
      ∃ i : Nat, (i : Int) < numtokens ∧ slot tokens i = REDIRECT ∧ (i : Int) ≠ numtokens - 2 := by
  rw [redirectMisplaced_iff]
  constructor
  · rintro ⟨j, hj, h1, h2⟩
    exact ⟨j, by omega, by simpa using h1, by simpa using h2⟩
  · rintro ⟨i, hi, h1, h2⟩
    exact ⟨i, by omega, by simpa using h1, by simpa using h2⟩

/-- What a return code of 0 from `getredirect` tells about the branch taken. -/
theorem getredirect_ok (tokens : List Str) (numtokens : Int) (r : Redirect) (file_szs : Nat)
    (h : (getredirect tokens numtokens r file_szs).1 = 0) :
    redirectMisplaced tokens numtokens numtokens.toNat 0 = false ∧
    ((numtokens > 2 ∧ slot tokens (numtokens - 2) = REDIRECT ∧
        (getredirect tokens numtokens r file_szs).2.numcmdtokens = numtokens - 2 ∧
        (getredirect tokens numtokens r file_szs).2.redirect_output = 1) ∨
     (¬ (numtokens > 2 ∧ slot tokens (numtokens - 2) = REDIRECT) ∧
        (getredirect tokens numtokens r file_szs).2.numcmdtokens = numtokens ∧
        (getredirect tokens numtokens r file_szs).2.redirect_output = 0)) := by
  unfold getredirect at h ⊢
  simp only [strncmp_REDIRECT] at h ⊢
  split_ifs at h ⊢ <;> simp_all

theorem getD_last_eq (dir : Str) (h : dir ≠ []) :
    dir.getD (dir.length - 1) '/' = '/' ↔ dir.getLast? = some '/' := by
  have hlt : dir.length - 1 < dir.length := by
    have := List.length_pos.2 h; omega
  rw [List.getLast?_eq_getElem?, List.getD_eq_getElem?_getD, List.getElem?_eq_getElem hlt]
  simp

/-- When the candidate fits its buffer, `buildpath` forms it and does not exit. -/
theorem buildpath_eq_candidate (dir file : Str) (dircapacity : Nat)
    (hfit : (candidate dir file).length < dircapacity) :
    buildpath dir file dircapacity = some (candidate dir file) := by
  by_cases hnil : dir = []
  · subst hnil
    simp only [candidate, true_or, if_true, List.nil_append] at hfit
    have h1 : ¬ dircapacity ≤ 0 := by omega
    have h2 : ¬ dircapacity ≤ file.length := by omega
    simp only [buildpath, List.length_nil, gt_iff_lt, lt_self_iff_false, false_and, if_false,
      strlcat, h1, List.nil_append, Nat.zero_add, ge_iff_le, h2, candidate, true_or, if_true,
      Option.some.injEq]
    exact List.take_of_length_le (by omega)
  · have hpos : 0 < dir.length := List.length_pos.2 hnil
    by_cases hlast : dir.getLast? = some '/'
    · have hd : dir.getD (dir.length - 1) '/' = '/' := (getD_last_eq dir hnil).2 hlast
      simp only [candidate, hlast, or_true, if_true, List.length_append] at hfit
      have h1 : ¬ dircapacity ≤ dir.length := by omega
      have h2 : ¬ dircapacity ≤ dir.length + file.length := by omega
      simp only [buildpath, gt_iff_lt, hpos, hd, ne_eq, not_true_eq_false, and_false, if_false,
        strlcat, h1, ge_iff_le, h2, candidate, hlast, or_true, if_true, Option.some.injEq,
        List.append_cancel_left_eq]
      exact List.take_of_length_le (by omega)
    · have hd : dir.getD (dir.length - 1) '/' ≠ '/' := fun h => hlast ((getD_last_eq dir hnil).1 h)
      simp only [candidate, hnil, hlast, or_self, if_false, List.length_append,
        List.length_cons, List.length_nil] at hfit
      have h1 : ¬ dircapacity ≤ dir.length := by omega
      have h2 : ¬ dircapacity ≤ dir.length + 1 := by omega
      have h3 : ¬ dircapacity ≤ dir.length + 1 + file.length := by omega
      have h4 : List.take (dircapacity - 1 - dir.length) ['/'] = ['/'] :=
        List.take_of_length_le (by simp; omega)
      simp only [buildpath, gt_iff_lt, hpos, ne_eq, hd, not_false_eq_true, and_self, if_true,
        strlcat, h1, if_false, List.length_cons, List.length_nil, Nat.zero_add, ge_iff_le, h2, h4,
        List.length_append, h3, candidate, hnil, hlast, or_self, Option.some.injEq,
        List.append_cancel_left_eq]
      exact List.take_of_length_le (by omega)

theorem candidate_length (dir name : Str) : dir.length ≤ (candidate dir name).length := by
  unfold candidate
  split_ifs <;> simp

/-- The resolver loop over slots `k`, `k + 1`, ... returns the first existing
candidate and probes every candidate up to it. -/
theorem getcmdpathLoop_find (stat : Str → Bool) (cmd : Str) (pathdirs : List Str)
    (dstsize : Nat) (iters : Nat) : ∀ (k : Nat) (currpath : Str),
    k + iters ≤ pathdirs.length →
    (∀ d ∈ (pathdirs.drop k).take iters, (candidate d cmd).length < dstsize) →
    ((getcmdpathLoop stat cmd pathdirs dstsize iters (k : Int) currpath).1.map Prod.fst
        = some ((((pathdirs.drop k).take iters).map (fun d => candidate d cmd)).find? stat).isSome) ∧
    (∀ p, (((pathdirs.drop k).take iters).map (fun d => candidate d cmd)).find? stat = some p →
      (getcmdpathLoop stat cmd pathdirs dstsize iters (k : Int) currpath).1 = some (true, p)) := by
  induction iters with
  | zero => intro k currpath _ _; simp [getcmdpathLoop]
  | succ iters ih =>
    intro k currpath hk hfit
    have hklt : k < pathdirs.length := by omega
    have hdrop : (pathdirs.drop k).take (iters + 1)
        = pathdirs[k] :: (pathdirs.drop (k + 1)).take iters := by
      rw [List.drop_eq_getElem_cons hklt, List.take_succ_cons]
    rw [hdrop] at hfit ⊢
    have hslot : slot pathdirs (k : Int) = pathdirs[k] := by
      simp [slot, List.getD_eq_getElem?_getD, List.getElem?_eq_getElem hklt]
    have hfit0 : (candidate pathdirs[k] cmd).length < dstsize :=
      hfit _ (List.mem_cons_self _ _)
    have hlen := candidate_length pathdirs[k] cmd
    have hsz : dstsize ≠ 0 := by omega
    have hcopy : List.take (dstsize - 1) pathdirs[k] = pathdirs[k] :=
      List.take_of_length_le (by omega)
    have hnot : ¬ dstsize ≤ pathdirs[k].length := by omega
    obtain ⟨ih1, ih2⟩ := ih (k + 1) (candidate pathdirs[k] cmd) (by omega)
      (fun d hd => hfit d (List.mem_cons_of_mem _ hd))
    have hcast : ((k : Int) + 1) = ((k + 1 : Nat) : Int) := by push_cast; ring
    by_cases hs : stat (candidate pathdirs[k] cmd) = true
    · simp [getcmdpathLoop, hslot, strlcpy, hsz, hcopy, hnot,
        buildpath_eq_candidate _ _ _ hfit0, hs, List.find?_cons]
    · simp only [Bool.not_eq_true] at hs
      simp only [getcmdpathLoop, hslot, strlcpy, hsz, if_false, hcopy, ge_iff_le, hnot,
        buildpath_eq_candidate _ _ _ hfit0, hs, Bool.false_eq_true, hcast, List.map_cons,
        List.find?_cons]
      exact ⟨ih1, ih2⟩

/-- With every candidate fitting `dstsize`, `getcmdpath` does not exit: it
returns 0 with the first existing candidate in `dst`, or -1 with `dst` as it was
when no candidate exists. -/
theorem getcmdpath_find (stat : Str → Bool) (cmd : Str) (path : path_t) (dst : Str)
    (dstsize : Nat) (hsize : path.size ≤ path.pathdirs.length)
    (hfit : ∀ d ∈ path.entries, (candidate d cmd).length < dstsize) :
    (getcmdpath stat cmd path dst dstsize).1 =
      match (path.entries.map (fun d => candidate d cmd)).find? stat with
      | some p => some (0, p)
      | none => some (-1, dst) := by
  have hk : 0 + path.size.toNat ≤ path.pathdirs.length := by omega
  obtain ⟨h1, h2⟩ := getcmdpathLoop_find stat cmd path.pathdirs dstsize path.size.toNat 0 []
    hk (by simpa [path_t.entries] using hfit)
  simp only [List.drop_zero, Nat.cast_zero] at h1 h2
  simp only [getcmdpath, path_t.entries]
  cases hf : ((List.take path.size.toNat path.pathdirs).map (fun d => candidate d cmd)).find? stat with
  | none =>
    rw [hf] at h1
    cases hl : (getcmdpathLoop stat cmd path.pathdirs dstsize path.size.toNat 0 []).1 with
    | none => rw [hl] at h1; simp at h1
    | some fc =>
      rw [hl] at h1
      obtain ⟨f, c⟩ := fc
      simp only [Option.map_some', Option.isSome_none, Option.some.injEq] at h1
      subst h1
      simp
  | some p =>
    have hmem := List.mem_of_find?_eq_some hf
    obtain ⟨d, hd, hdp⟩ := List.mem_map.1 hmem
    have hp : p.length < dstsize := by
      rw [← hdp]; exact hfit d (by simpa [path_t.entries] using hd)
    have hsz : dstsize ≠ 0 := by omega
    have hnot : ¬ dstsize ≤ p.length := by omega
    simp only [h2 p hf, if_true, strlcpy, hsz, if_false, ge_iff_le, hnot]
    rw [List.take_of_length_le (by omega)]

theorem find?_eq_getElem_of_first {α : Type} (p : α → Bool) :
    ∀ (l : List α) (i : Nat) (hi : i < l.length), p l[i] = true →
      (∀ (j : Nat) (hj : j < i), p (l.get ⟨j, Nat.lt_trans hj hi⟩) = false) →
      l.find? p = some l[i] := by
  intro l
  induction l with
  | nil => intro i hi; simp at hi
  | cons a as ih =>
    intro i hi hp hfirst
    cases i with
    | zero =>
      have hp0 : p a = true := by simpa using hp
      simp [List.find?_cons, hp0]
    | succ k =>
      have h0 : p a = false := hfirst 0 (Nat.succ_pos k)
      have hk : k < as.length := by simpa using hi
      have := ih k hk (by simpa using hp)
        (fun j hj => by simpa using hfirst (j + 1) (Nat.succ_lt_succ hj))
      simpa [List.find?_cons, h0] using this

theorem setpathLoop_getElem? (tokens : List Str) (iters : Nat) :
    ∀ (k : Nat) (pathdirs : List Str) (i : Nat),
      (setpathLoop tokens iters ((k : Int) + 1) pathdirs)[i]? =
        if k ≤ i ∧ i < k + iters ∧ i < pathdirs.length then some (slot tokens ((i : Int) + 1))
        else pathdirs[i]? := by
  induction iters with
  | zero =>
    intro k pathdirs i
    have : ¬ (k ≤ i ∧ i < k + 0 ∧ i < pathdirs.length) := by omega
    simp only [setpathLoop]
    rw [if_neg this]
  | succ iters ih =>
    intro k pathdirs i
    have hcast : (k : Int) + 1 + 1 = ((k + 1 : Nat) : Int) + 1 := by push_cast; ring
    have hk : ((k : Int) + 1 - 1).toNat = k := by omega
    simp only [setpathLoop, hcast, hk]
    rw [ih (k + 1) _ i, List.length_set, List.getElem?_set]
    by_cases h1 : k + 1 ≤ i ∧ i < k + 1 + iters ∧ i < pathdirs.length
    · have h2 : k ≤ i ∧ i < k + (iters + 1) ∧ i < pathdirs.length := by omega
      rw [if_pos h1, if_pos h2]
    · rw [if_neg h1]
      by_cases h3 : k = i
      · subst h3
        by_cases h4 : k < pathdirs.length
        · have h2 : k ≤ k ∧ k < k + (iters + 1) ∧ k < pathdirs.length := by omega
          simp [h4, h2]
        · have h2 : ¬ (k ≤ k ∧ k < k + (iters + 1) ∧ k < pathdirs.length) := by omega
          simp only [h4, h2, if_false, and_false]
          rw [List.getElem?_eq_none (by omega)]
          simp
      · have h2 : ¬ (k ≤ i ∧ i < k + (iters + 1) ∧ i < pathdirs.length) := by omega
        simp [h3, h2]

theorem setpathLoop_length (tokens : List Str) (iters : Nat) :
    ∀ (idx : Int) (pathdirs : List Str),
      (setpathLoop tokens iters idx pathdirs).length = pathdirs.length := by
  induction iters with
  | zero => intro idx pathdirs; rfl
  | succ iters ih => intro idx pathdirs; simp [setpathLoop, ih]

/-- After `setpath` the first `numtokens - 1` slots of the search path hold the
tokens that follow the command name. -/
theorem setpath_entries (cmd : Str) (ds rest : List Str) (path : path_t)
    (hcap : ds.length ≤ path.pathdirs.length) :
    (setpath (cmd :: ds ++ rest) ((ds.length : Int) + 1) path).entries = ds := by
  have hiters : ((ds.length : Int) + 1 - 1).toNat = ds.length := by omega
  simp only [setpath, path_t.entries, hiters]
  apply List.ext_getElem?
  intro i
  rw [List.getElem?_take]
  have h := setpathLoop_getElem? (cmd :: ds ++ rest) ds.length 0 path.pathdirs i
  simp only [Nat.cast_zero, Int.zero_add, Nat.zero_le, Nat.zero_add, true_and] at h
  by_cases hi : i < ds.length
  · have hi2 : i < path.pathdirs.length := by omega
    have hs : slot (cmd :: ds ++ rest) ((i : Int) + 1) = ds[i] := by
      have : ((i : Int) + 1).toNat = i + 1 := by omega
      simp [slot, this, List.getD_eq_getElem?_getD, List.getElem?_append_left hi,
        List.getElem?_eq_getElem hi]
    rw [if_pos hi, h, if_pos ⟨hi, hi2⟩, hs, List.getElem?_eq_getElem hi]
  · rw [if_neg hi, List.getElem?_eq_none (by omega)]

theorem runcmd_exit (env : Env) (tokens : List Str) (numtokens : Int) (w : World)
    (h : slot tokens 0 = ['e', 'x', 'i', 't']) :
    runcmd env tokens numtokens w = { w with exited := some 0 } := by
  have h1 : strncmp (slot tokens 0) ['e', 'x', 'i', 't'] MAX_LINE_LEN = 0 :=
    (strncmp_name _ _ (by decide)).2 h
  simp only [runcmd]
  rw [if_pos h1]

theorem runcmd_pwd (env : Env) (tokens : List Str) (numtokens : Int) (w : World)
    (h : slot tokens 0 = ['p', 'w', 'd']) :
    runcmd env tokens numtokens w
      = { w with trace := w.trace ++ [Event.print (w.cwd ++ ['\n'])] } := by
  have h1 : ¬ strncmp (slot tokens 0) ['e', 'x', 'i', 't'] MAX_LINE_LEN = 0 := by
    rw [strncmp_name _ _ (by decide), h]; decide
  have h2 : strncmp (slot tokens 0) ['p', 'w', 'd'] MAX_LINE_LEN = 0 :=
    (strncmp_name _ _ (by decide)).2 h
  simp only [runcmd]
  rw [if_neg h1, if_pos h2]

theorem runcmd_cd (env : Env) (tokens : List Str) (numtokens : Int) (w : World)
    (h : slot tokens 0 = ['c', 'd']) :
    runcmd env tokens numtokens w = changedirectory env tokens numtokens w := by
  have h1 : ¬ strncmp (slot tokens 0) ['e', 'x', 'i', 't'] MAX_LINE_LEN = 0 := by
    rw [strncmp_name _ _ (by decide), h]; decide
  have h2 : ¬ strncmp (slot tokens 0) ['p', 'w', 'd'] MAX_LINE_LEN = 0 := by
    rw [strncmp_name _ _ (by decide), h]; decide
  have h3 : strncmp (slot tokens 0) ['c', 'd'] MAX_LINE_LEN = 0 :=
    (strncmp_name _ _ (by decide)).2 h
  simp only [runcmd]
  rw [if_neg h1, if_neg h2, if_pos h3]

theorem runcmd_path (env : Env) (tokens : List Str) (numtokens : Int) (w : World)
    (h : slot tokens 0 = ['p', 'a', 't', 'h']) :
    runcmd env tokens numtokens w = { w with path := setpath tokens numtokens w.path } := by
  have h1 : ¬ strncmp (slot tokens 0) ['e', 'x', 'i', 't'] MAX_LINE_LEN = 0 := by
    rw [strncmp_name _ _ (by decide), h]; decide
  have h2 : ¬ strncmp (slot tokens 0) ['p', 'w', 'd'] MAX_LINE_LEN = 0 := by
    rw [strncmp_name _ _ (by decide), h]; decide
  have h3 : ¬ strncmp (slot tokens 0) ['c', 'd'] MAX_LINE_LEN = 0 := by
    rw [strncmp_name _ _ (by decide), h]; decide
  have h4 : strncmp (slot tokens 0) ['p', 'a', 't', 'h'] MAX_LINE_LEN = 0 :=
    (strncmp_name _ _ (by decide)).2 h
  simp only [runcmd]
  rw [if_neg h1, if_neg h2, if_neg h3, if_pos h4]

theorem runcmd_other (env : Env) (tokens : List Str) (numtokens : Int) (w : World)
    (h : slot tokens 0 ∉ [['e', 'x', 'i', 't'], ['p', 'w', 'd'], ['c', 'd'], ['p', 'a', 't', 'h']]) :
    runcmd env tokens numtokens w = runprog env tokens numtokens w := by
  simp only [List.mem_cons, List.mem_singleton, List.not_mem_nil, or_false, not_or] at h
  obtain ⟨n1, n2, n3, n4⟩ := h
  have h1 : ¬ strncmp (slot tokens 0) ['e', 'x', 'i', 't'] MAX_LINE_LEN = 0 := by
    rw [strncmp_name _ _ (by decide)]; exact n1
  have h2 : ¬ strncmp (slot tokens 0) ['p', 'w', 'd'] MAX_LINE_LEN = 0 := by
    rw [strncmp_name _ _ (by decide)]; exact n2
  have h3 : ¬ strncmp (slot tokens 0) ['c', 'd'] MAX_LINE_LEN = 0 := by
    rw [strncmp_name _ _ (by decide)]; exact n3
  have h4 : ¬ strncmp (slot tokens 0) ['p', 'a', 't', 'h'] MAX_LINE_LEN = 0 := by
    rw [strncmp_name _ _ (by decide)]; exact n4
  simp only [runcmd]
  rw [if_neg h1, if_neg h2, if_neg h3, if_neg h4]

/-- The built-in `cd` adds no call of the process launcher to the trace. -/
theorem changedirectory_trace (env : Env) (tokens : List Str) (numtokens : Int) (w : World) :
    ∃ added, (changedirectory env tokens numtokens w).trace = w.trace ++ added ∧
      ∀ e ∈ added, e.isLaunch = false := by
  have hto : ∀ t, ∃ added, (changedirectoryTo env t w).trace = w.trace ++ added ∧
      ∀ e ∈ added, e.isLaunch = false := by
    intro t
    unfold changedirectoryTo print_error
    cases hc : env.chdir w.cwd t with
    | none =>
      exact ⟨[Event.chdir t, Event.print ("Error: ".toList ++ t ++ ['\n']), Event.error],
        by simp, by simp [Event.isLaunch]⟩
    | some c => exact ⟨[Event.chdir t], by simp, by simp [Event.isLaunch]⟩
  unfold changedirectory
  split_ifs
  · cases hh : env.home with
    | none => exact ⟨[Event.error], by simp [print_error], by simp [Event.isLaunch]⟩
    | some t => exact hto t
  · exact hto _

/-- The built-in `cd` does not consult the file-existence oracle or `fork`. -/
theorem changedirectory_env (env env2 : Env) (tokens : List Str) (numtokens : Int) (w : World)
    (hhome : env2.home = env.home) (hchdir : env2.chdir = env.chdir) :
    changedirectory env2 tokens numtokens w = changedirectory env tokens numtokens w := by
  simp [changedirectory, changedirectoryTo, hhome, hchdir]

theorem argvLoop_length (tokens : List Str) (cap : Nat) (iters : Nat) :
    ∀ (tidx : Int) (argv : List Str),
      (argvLoop tokens cap iters tidx argv).length = argv.length := by
  induction iters with
  | zero => intro tidx argv; rfl
  | succ iters ih => intro tidx argv; simp [argvLoop, ih]

theorem argvLoop_getElem? (tokens : List Str) (cap : Nat) (hcap : cap ≠ 0) (iters : Nat) :
    ∀ (k : Nat) (argv : List Str) (i : Nat),
      (argvLoop tokens cap iters (k : Int) argv)[i]? =
        if k ≤ i ∧ i < k + iters ∧ i < argv.length then
          some ((slot tokens (i : Int)).take (cap - 1))
        else argv[i]? := by
  induction iters with
  | zero =>
    intro k argv i
    have : ¬ (k ≤ i ∧ i < k + 0 ∧ i < argv.length) := by omega
    simp only [argvLoop]
    rw [if_neg this]
  | succ iters ih =>
    intro k argv i
    have hcast : (k : Int) + 1 = ((k + 1 : Nat) : Int) := by push_cast; ring
    simp only [argvLoop, hcast, Int.toNat_ofNat, strlcpy, hcap, if_false]
    rw [ih (k + 1) _ i, List.length_set, List.getElem?_set]
    by_cases h1 : k + 1 ≤ i ∧ i < k + 1 + iters ∧ i < argv.length
    · have h2 : k ≤ i ∧ i < k + (iters + 1) ∧ i < argv.length := by omega
      rw [if_pos h1, if_pos h2]
    · rw [if_neg h1]
      by_cases h3 : k = i
      · subst h3
        by_cases h4 : k < argv.length
        · have h2 : k ≤ k ∧ k < k + (iters + 1) ∧ k < argv.length := by omega
          simp [h4, h2]
        · have h2 : ¬ (k ≤ k ∧ k < k + (iters + 1) ∧ k < argv.length) := by omega
          simp only [h4, h2, if_false, and_false]
          rw [List.getElem?_eq_none (by omega)]
          simp
      · have h2 : ¬ (k ≤ i ∧ i < k + (iters + 1) ∧ i < argv.length) := by omega
        simp [h3, h2]

/-- The vector `runprog` builds for `n ≥ 1` command tokens: the resolved path cut
to `MAX_LINE_LEN` characters, then the command tokens 1 to `n - 1` cut likewise,
then the NULL pointer. -/
theorem buildargv_getElem? (tokens : List Str) (n : Nat) (cmdpath : Str) (hn : 1 ≤ n) (i : Nat) :
    (buildargv tokens (n : Int) cmdpath)[i]? =
      if i = 0 then some (some (cmdpath.take MAX_LINE_LEN))
      else if i < n then some (some ((slot tokens (i : Int)).take MAX_LINE_LEN))
      else if i = n then some none
      else none := by
  have hsz : ((n : Int) + 1).toNat = n + 1 := by omega
  have hit : ((n : Int) - 1).toNat = n - 1 := by omega
  have hcap : MAX_LINE_LEN + 1 ≠ 0 := by decide
  have hloop := argvLoop_getElem? tokens (MAX_LINE_LEN + 1) hcap (n - 1) 1
    ((alloc_str_array (n + 1)).set 0 (cmdpath.take MAX_LINE_LEN)) i
  have hlen : (argvLoop tokens (MAX_LINE_LEN + 1) (n - 1) ((1 : Nat) : Int)
      ((alloc_str_array (n + 1)).set 0 (cmdpath.take MAX_LINE_LEN))).length = n + 1 := by
    rw [argvLoop_length]; simp [alloc_str_array]
  simp only [buildargv, hsz, hit, strlcpy, hcap, if_false, Nat.add_sub_cancel, Int.toNat_ofNat]
  rw [List.getElem?_set, List.length_map, List.getElem?_map]
  have h1 : (1 : Int) = ((1 : Nat) : Int) := rfl
  rw [h1, hlen, hloop]
  simp only [List.length_set, alloc_str_array, List.length_replicate, Nat.add_sub_cancel]
  by_cases hi0 : i = 0
  · subst hi0
    have hn0 : ¬ n = 0 := by omega
    simp [hn0, List.getElem?_set]
  · by_cases hin : i < n
    · have h2 : 1 ≤ i ∧ i < 1 + (n - 1) ∧ i < n + 1 := by omega
      have h3 : ¬ n = i := by omega
      simp [hi0, hin, h2, h3]
    · by_cases hie : i = n
      · subst hie
        simp [hi0]
      · have h3 : ¬ n = i := fun h => hie h.symm
        have h2 : ¬ (1 ≤ i ∧ i < 1 + (n - 1) ∧ i < n + 1) := by omega
        have h4 : ¬ i < n + 1 := by omega
        have h5 : ¬ 0 = i := fun h => hi0 h.symm
        simp [hi0, hin, hie, h3, h2, List.getElem?_set, List.getElem?_replicate, h4, h5]

/-- With no iteration to run the resolver loop finds nothing and probes nothing. -/
theorem getcmdpath_size_zero (stat : Str → Bool) (cmd : Str) (path : path_t) (dst : Str)
    (dstsize : Nat) (hzero : path.size = 0) :
    getcmdpath stat cmd path dst dstsize = (some (-1, dst), []) := by
  simp [getcmdpath, getcmdpathLoop, hzero]

/-- The return code of `getredirect` is 0 or -1. -/
theorem getredirect_rc (tokens : List Str) (numtokens : Int) (r : Redirect) (file_szs : Nat) :
    (getredirect tokens numtokens r file_szs).1 = 0 ∨
    (getredirect tokens numtokens r file_szs).1 = -1 := by
  simp only [getredirect]
  split_ifs <;> simp

/-- The redirection branch of `getredirect`: it fails exactly when the base name
with a four-character suffix does not fit `file_szs`, and otherwise reports the
two untruncated targets. -/
theorem getredirect_clause (tokens : List Str) (numtokens : Int) (r : Redirect) (file_szs : Nat)
    (hm : redirectMisplaced tokens numtokens numtokens.toNat 0 = false)
    (hn : 2 < numtokens) (hred : slot tokens (numtokens - 2) = REDIRECT) :
    (file_szs ≤ (slot tokens (numtokens - 1)).length + 4 →
      (getredirect tokens numtokens r file_szs).1 = -1) ∧
    ((slot tokens (numtokens - 1)).length + 4 < file_szs →
      getredirect tokens numtokens r file_szs =
        (0, { numcmdtokens := numtokens - 2, redirect_output := 1,
              outfile := slot tokens (numtokens - 1) ++ ['.', 'o', 'u', 't'],
              errfile := slot tokens (numtokens - 1) ++ ['.', 'e', 'r', 'r'] })) := by
  have hs : strncmp (slot tokens (numtokens - 2)) REDIRECT 2 = 0 := (strncmp_REDIRECT _).2 hred
  constructor
  · intro hbig
    by_cases h0 : file_szs = 0
    · simp [getredirect, hm, hn, hs, strlcpy, h0]
    · by_cases h1 : file_szs ≤ (slot tokens (numtokens - 1)).length
      · simp [getredirect, hm, hn, hs, strlcpy, h0, h1]
      · have ht : List.take (file_szs - 1) (slot tokens (numtokens - 1))
            = slot tokens (numtokens - 1) := List.take_of_length_le (by omega)
        simp [getredirect, hm, hn, hs, strlcpy, strlcat, h0, h1, ht, hbig]
  · intro hfit
    have h0 : file_szs ≠ 0 := by omega
    have h1 : ¬ file_szs ≤ (slot tokens (numtokens - 1)).length := by omega
    have h2 : ¬ file_szs ≤ (slot tokens (numtokens - 1)).length + 4 := by omega
    have ht : List.take (file_szs - 1) (slot tokens (numtokens - 1))
        = slot tokens (numtokens - 1) := List.take_of_length_le (by omega)
    have h4 : 4 ≤ file_szs - 1 - (slot tokens (numtokens - 1)).length := by omega
    simp only [getredirect, hm, hn, gt_iff_lt, hs, strlcpy, strlcat, h0, if_false, ht, ge_iff_le,
      h1, List.length_cons, List.length_nil, h2, and_self, if_true, Bool.false_eq_true]
    rw [List.take_of_length_le (by simpa using h4), List.take_of_length_le (by simpa using h4)]

/-- Without a redirection token in the sequence `getredirect` takes its last
branch. -/
theorem getredirect_plain (tokens : List Str) (numtokens : Int) (r : Redirect) (file_szs : Nat)
    (hnone : ∀ i : Nat, (i : Int) < numtokens → slot tokens i ≠ REDIRECT) :
    getredirect tokens numtokens r file_szs =
      (0, { r with numcmdtokens := numtokens, redirect_output := 0 }) := by
  have hm : redirectMisplaced tokens numtokens numtokens.toNat 0 = false := by
    rw [Bool.eq_false_iff]
    intro h
    obtain ⟨i, hi, h1, _⟩ := (redirectMisplaced_getredirect tokens numtokens).1 h
    exact hnone i hi h1
  have hbr : ¬ (numtokens > 2 ∧ strncmp (slot tokens (numtokens - 2)) REDIRECT 2 = 0) := by
    rintro ⟨hn, hs⟩
    have h1 := hnone (numtokens - 2).toNat (by omega)
    rw [show (((numtokens - 2).toNat : Nat) : Int) = numtokens - 2 by omega] at h1
    exact h1 ((strncmp_REDIRECT _).1 hs)
  simp only [getredirect, hm, Bool.false_eq_true, if_false]
  rw [if_neg hbr]

/-- The launcher `runprog` leaves the search path and the working directory alone. -/
theorem runprog_frame (env : Env) (tokens : List Str) (numtokens : Int) (w : World) :
    (runprog env tokens numtokens w).path = w.path ∧
    (runprog env tokens numtokens w).cwd = w.cwd := by
  unfold runprog
  simp only
  split_ifs <;> (try split) <;> (try split_ifs) <;> simp [print_error, error_and_exit]

/-- With an empty search path `runprog` only reports an error. -/
theorem runprog_size_zero (env : Env) (tokens : List Str) (numtokens : Int) (w : World)
    (hzero : w.path.size = 0) :
    runprog env tokens numtokens w = print_error w := by
  unfold runprog
  simp only [getcmdpath_size_zero _ _ _ _ _ hzero]
  split_ifs
  · rfl
  · simp [print_error]

/-- When the redirection parse fails `runprog` only reports an error. -/
theorem runprog_parse_error (env : Env) (tokens : List Str) (numtokens : Int) (w : World)
    (hrc : (getredirect tokens numtokens
      { numcmdtokens := 0, redirect_output := 0, outfile := [], errfile := [] }
      MAX_LINE_LEN).1 = -1) :
    runprog env tokens numtokens w = print_error w := by
  unfold runprog
  simp only [hrc, if_true]

/-- When the parse succeeds and `getcmdpath` returns -1, `runprog` records the
probes and one error. -/
theorem runprog_not_found (env : Env) (tokens : List Str) (numtokens : Int) (w : World)
    (dst : Str)
    (hrc : (getredirect tokens numtokens
      { numcmdtokens := 0, redirect_output := 0, outfile := [], errfile := [] }
      MAX_LINE_LEN).1 = 0)
    (hgp : (getcmdpath env.stat (slot tokens 0) w.path [] (env.maxpathlen + 1)).1
      = some (-1, dst)) :
    runprog env tokens numtokens w =
      print_error { w with trace := w.trace ++
        (getcmdpath env.stat (slot tokens 0) w.path [] (env.maxpathlen + 1)).2.map Event.stat } := by
  unfold runprog
  have hne : ¬ (getredirect tokens numtokens
      { numcmdtokens := 0, redirect_output := 0, outfile := [], errfile := [] }
      MAX_LINE_LEN).1 = -1 := by rw [hrc]; decide
  simp only [hne, if_false, hgp, if_true]

/-- The built-in `cd` leaves the search path alone and does not end the process. -/
theorem changedirectory_frame (env : Env) (tokens : List Str) (numtokens : Int) (w : World) :
    (changedirectory env tokens numtokens w).path = w.path ∧
    (changedirectory env tokens numtokens w).exited = w.exited := by
  have hto : ∀ t, (changedirectoryTo env t w).path = w.path ∧
      (changedirectoryTo env t w).exited = w.exited := by
    intro t
    unfold changedirectoryTo print_error
    cases env.chdir w.cwd t <;> simp
  unfold changedirectory
  split_ifs
  · cases hh : env.home with
    | none => simp [print_error]
    | some t => exact hto t
  · exact hto _

/-- The search path after `runcmd`: replaced by `setpath` when the first token is
`path`, untouched otherwise. -/
theorem runcmd_path_eq (env : Env) (tokens : List Str) (numtokens : Int) (w : World) :
    (runcmd env tokens numtokens w).path =
      if slot tokens 0 = ['p', 'a', 't', 'h'] then setpath tokens numtokens w.path
      else w.path := by
  by_cases hp : slot tokens 0 = ['p', 'a', 't', 'h']
  · rw [if_pos hp, runcmd_path env tokens numtokens w hp]
  · rw [if_neg hp]
    by_cases h1 : slot tokens 0 = ['e', 'x', 'i', 't']
    · rw [runcmd_exit env tokens numtokens w h1]
    · by_cases h2 : slot tokens 0 = ['p', 'w', 'd']
      · rw [runcmd_pwd env tokens numtokens w h2]
      · by_cases h3 : slot tokens 0 = ['c', 'd']
        · rw [runcmd_cd env tokens numtokens w h3]
          exact (changedirectory_frame env tokens numtokens w).1
        · rw [runcmd_other env tokens numtokens w (by simp [h1, h2, h3, hp])]
          exact (runprog_frame env tokens numtokens w).1

theorem strsep_fst_no_delim (s delim : Str) : ∀ c ∈ (strsep s delim).1, c ∉ delim := by
  induction s with
  | nil => simp [strsep]
  | cons a as ih =>
    by_cases h : a ∈ delim
    · simp [strsep, h]
    · simp only [strsep, h, if_false, List.mem_cons]
      rintro c (hc | hc)
      · rw [hc]; exact h
      · exact ih c hc

/-- Every field kept by the split is non-empty and free of delimiters. -/
theorem splitFields_mem (n : Nat) : ∀ s : Str, s.length ≤ n →
    ∀ f ∈ splitFields s, f ≠ [] ∧ ∀ c ∈ f, c ∉ ARG_DELIM := by
  induction n with
  | zero =>
    intro s hs f hf
    have hnil : s = [] := List.length_eq_zero.1 (Nat.le_zero.1 hs)
    subst hnil
    rw [splitFields_strsep] at hf
    simp [strsep] at hf
  | succ n ih =>
    intro s hs f hf
    rw [splitFields_strsep] at hf
    rcases List.mem_append.1 hf with h1 | h1
    · by_cases ht : (strsep s ARG_DELIM).1 = []
      · simp [ht] at h1
      · simp only [ne_eq, ht, not_false_eq_true, if_true, List.mem_singleton] at h1
        subst h1
        exact ⟨ht, strsep_fst_no_delim s ARG_DELIM⟩
    · cases hn : (strsep s ARG_DELIM).2 with
      | none => simp [hn] at h1
      | some r =>
        simp only [hn] at h1
        have := strsep_snd_length s ARG_DELIM r hn
        exact ih r (by omega) f h1

/-- The kept fields, each with the delimiter that ends it except perhaps the
last, fit in the line. -/
theorem splitFields_sum (n : Nat) : ∀ s : Str, s.length ≤ n →
    ((splitFields s).map List.length).sum + (splitFields s).length ≤ s.length + 1 := by
  induction n with
  | zero =>
    intro s hs
    have hnil : s = [] := List.length_eq_zero.1 (Nat.le_zero.1 hs)
    subst hnil
    rw [splitFields_strsep]
    simp [strsep]
  | succ n ih =>
    intro s hs
    have hlen1 := strsep_fst_length s ARG_DELIM
    rw [splitFields_strsep]
    cases hn : (strsep s ARG_DELIM).2 with
    | none =>
      by_cases ht : (strsep s ARG_DELIM).1 = []
      · simp [ht]
      · simp only [ne_eq, ht, not_false_eq_true, if_true, List.append_nil, List.map_cons,
          List.map_nil, List.sum_cons, List.sum_nil, List.length_cons, List.length_nil]
        omega
    | some r =>
      have hlen2 := strsep_snd_length s ARG_DELIM r hn
      have := ih r (by omega)
      by_cases ht : (strsep s ARG_DELIM).1 = []
      · simp only [ne_eq, ht, not_true_eq_false, if_false, List.nil_append]
        omega
      · simp only [ne_eq, ht, not_false_eq_true, if_true, List.singleton_append, List.map_cons,
          List.sum_cons, List.length_cons]
        omega

/-- A slot among the first ones of an array is the matching element of the
prefix. -/
theorem slot_of_take (l fs : List Str) (k : Nat) (h : l.take k = fs) (i : Nat)
    (hi : i < fs.length) : slot l (i : Int) = fs.get ⟨i, hi⟩ := by
  subst h
  have hik : i < k ∧ i < l.length := by
    rw [List.length_take] at hi; omega
  simp [slot, List.getD_eq_getElem?_getD, List.getElem?_eq_getElem hik.2, List.getElem_take]

theorem length_le_sum_length (fs : List Str) (h : ∀ f ∈ fs, f ≠ []) :
    fs.length ≤ (fs.map List.length).sum := by
  induction fs with
  | nil => simp
  | cons a as ih =>
    have ha : 0 < a.length := List.length_pos.2 (h a (List.mem_cons_self a as))
    have := ih (fun f hf => h f (List.mem_cons_of_mem a hf))
    simp only [List.length_cons, List.map_cons, List.sum_cons]
    omega

theorem startup_wellFormed (cwd : Str) : (startup cwd).wellFormed := by
  refine ⟨by simp [startup, alloc_str_array], by simp [startup, init_path, alloc_str_array],
    by simp [startup, init_path, MAX_LINE_LEN], ?_⟩
  intro d hd
  have hd2 : d = ['/', 'b', 'i', 'n'] := by
    simpa [startup, init_path, path_t.entries, alloc_str_array, MAX_LINE_LEN,
      List.take_one] using hd
  subst hd2
  simp [ARG_DELIM]

/-- The search path set from a freshly tokenised line is well formed. -/
theorem setpath_wellFormed (line : Str) (tk : List Str) (path : path_t)
    (hlen : tk.length = MAX_LINE_LEN) (hpd : path.pathdirs.length = MAX_LINE_LEN)
    (htake : tk.take (splitFields line).length = splitFields line) :
    (setpath tk ((splitFields line).length : Int) path).pathdirs.length = MAX_LINE_LEN ∧
    (setpath tk ((splitFields line).length : Int) path).size ≤ MAX_LINE_LEN ∧
    ∀ d ∈ (setpath tk ((splitFields line).length : Int) path).entries,
      d ≠ [] ∧ ∀ c ∈ d, c ∉ ARG_DELIM := by
  have hk : (splitFields line).length ≤ MAX_LINE_LEN := by
    have := congrArg List.length htake
    rw [List.length_take, hlen] at this
    omega
  refine ⟨by simp [setpath, setpathLoop_length, hpd], by simp only [setpath]; omega, ?_⟩
  cases hf : splitFields line with
  | nil =>
    intro d hd
    simp [setpath, path_t.entries] at hd
  | cons cmd ds =>
    rw [hf] at htake hk
    have htk : tk = cmd :: ds ++ tk.drop (ds.length + 1) := by
      have := List.take_append_drop (ds.length + 1) tk
      rw [List.length_cons] at htake
      rw [htake] at this
      exact this.symm
    have hcap : ds.length ≤ path.pathdirs.length := by
      rw [hpd]; simp only [List.length_cons] at hk; omega
    have hent := setpath_entries cmd ds (tk.drop (ds.length + 1)) path hcap
    rw [← htk] at hent
    have hcast : (((cmd :: ds).length : Nat) : Int) = (ds.length : Int) + 1 := by simp
    rw [hcast, hent]
    intro d hd
    exact splitFields_mem line.length line (Nat.le_refl _) d
      (by rw [hf]; exact List.mem_cons_of_mem _ hd)

/-- One pass through the loop of `main` keeps the arrays well formed. -/
theorem mainBody_wellFormed (env : Env) (sh sh1 : Shell) (readrc : Int) (input : Str)
    (hwf : sh.wellFormed) (h : mainBody env sh readrc input = some sh1) : sh1.wellFormed := by
  obtain ⟨htok, hpd, hsz, hent⟩ := hwf
  unfold mainBody at h
  cases hex : sh.world.exited with
  | some st =>
    simp only [hex, Option.some.injEq] at h
    subst h
    exact ⟨htok, hpd, hsz, hent⟩
  | none =>
    simp only [hex] at h
    by_cases hrc : readrc = -1
    · simp only [hrc, if_true, Option.some.injEq] at h
      subst h
      exact ⟨htok, hpd, hsz, hent⟩
    · simp only [hrc, if_false] at h
      by_cases hline : input.length < MAX_LINE_LEN
      · obtain ⟨tk, h1, h2, h3, _⟩ := tokenise_eq input sh.tokens hline htok
        simp only [h1, Option.some.injEq] at h
        subst h
        refine ⟨by rw [h2, htok], ?_⟩
        simp only [Shell.wellFormed, runcmd_path_eq]
        by_cases hp : slot tk 0 = ['p', 'a', 't', 'h']
        · simp only [hp, if_true]
          exact setpath_wellFormed input tk sh.world.path (by rw [h2, htok]) hpd h3
        · simp only [hp, if_false]
          exact ⟨hpd, hsz, hent⟩
      · simp [tokenise, hline] at h

/-- Every state a session reaches from a well-formed one is well formed. -/
theorem session_wellFormed (steps : List (Env × Int × Str)) :
    ∀ (sh sh1 : Shell), sh.wellFormed → session sh steps = some sh1 → sh1.wellFormed := by
  induction steps with
  | nil =>
    intro sh sh1 hwf h
    simp only [session, Option.some.injEq] at h
    subst h
    exact hwf
  | cons st rest ih =>
    intro sh sh1 hwf h
    obtain ⟨env, readrc, input⟩ := st
    simp only [session] at h
    cases hm : mainBody env sh readrc input with
    | none => simp [hm] at h
    | some sh2 =>
      simp only [hm] at h
      exact ih sh2 sh1 (mainBody_wellFormed env sh sh2 readrc input hwf hm) h

/-! ## Claims -/

/-- C1: for every line shorter than `MAX_LINE_LEN` and every token array of
`MAX_LINE_LEN` slots, `tokenise` returns the number of non-empty fields of the
line split at every space and tab, and leaves exactly those fields, in order, in
the first slots of the array; a line made only of spaces and tabs (the empty
line included) gives zero tokens and writes nothing; `"ls  -l   /tmp"` gives
`["ls", "-l", "/tmp"]`. -/
theorem tokenise_splitFields (tokens : List Str) (htok : tokens.length = MAX_LINE_LEN) :
    (∀ line : Str, line.length < MAX_LINE_LEN →
      ∃ tokens', tokenise line MAX_LINE_LEN tokens
          = some (tokens', ((splitFields line).length : Int)) ∧
        tokens'.take (splitFields line).length = splitFields line) ∧
    (∀ line : Str, line.length < MAX_LINE_LEN → (∀ c ∈ line, c = ' ' ∨ c = '\t') →
      tokenise line MAX_LINE_LEN tokens = some (tokens, 0)) ∧
    (∃ tokens', tokenise "ls  -l   /tmp".toList MAX_LINE_LEN tokens = some (tokens', 3) ∧
      tokens'.take 3 = ["ls".toList, "-l".toList, "/tmp".toList]) := by
  refine ⟨?_, ?_, ?_⟩
  · intro line hline
    obtain ⟨tk, h1, _, h3, _⟩ := tokenise_eq line tokens hline htok
    exact ⟨tk, h1, h3⟩
  · intro line hline hdelim
    obtain ⟨tk, h1, _, _, h4⟩ := tokenise_eq line tokens hline htok
    rw [splitFields_of_all_delim line hdelim] at h1 h4
    simp only [List.length_nil, List.drop_zero] at h4
    rw [h1, h4]; rfl
  · have hs : splitFields "ls  -l   /tmp".toList = ["ls".toList, "-l".toList, "/tmp".toList] := by
      decide
    obtain ⟨tk, h1, _, h3, _⟩ :=
      tokenise_eq "ls  -l   /tmp".toList tokens (by decide) htok
    rw [hs] at h1 h3
    exact ⟨tk, h1, h3⟩

/-- Witness for C1: the line `ls -l` and the freshly allocated token array. -/
theorem tokenise_splitFields_witness :
    (alloc_str_array MAX_LINE_LEN).length = MAX_LINE_LEN ∧
    "ls -l".toList.length < MAX_LINE_LEN ∧
    ∃ tokens', tokenise "ls -l".toList MAX_LINE_LEN (alloc_str_array MAX_LINE_LEN)
        = some (tokens', ((splitFields "ls -l".toList).length : Int)) ∧
      tokens'.take (splitFields "ls -l".toList).length = splitFields "ls -l".toList :=
  ⟨by simp [alloc_str_array], by decide,
    (tokenise_splitFields (alloc_str_array MAX_LINE_LEN) (by simp [alloc_str_array])).1
      "ls -l".toList (by decide)⟩

/-- C2: whenever a token equal to `">"` occurs in the sequence at an index other
than `numtokens - 2`, `getredirect` returns -1; so it does on `[cmd, ">"]`,
`[cmd, ">", a, b]` and `[cmd, ">", a, ">", b]`. -/
theorem getredirect_misplaced (r : Redirect) (file_szs : Nat) :
    (∀ (tokens : List Str) (numtokens : Int) (i : Nat), (i : Int) < numtokens →
      slot tokens i = REDIRECT → (i : Int) ≠ numtokens - 2 →
      (getredirect tokens numtokens r file_szs).1 = -1) ∧
    (∀ (cmd : Str) (rest : List Str),
      (getredirect (cmd :: REDIRECT :: rest) 2 r file_szs).1 = -1) ∧
    (∀ (cmd a b : Str) (rest : List Str),
      (getredirect (cmd :: REDIRECT :: a :: b :: rest) 4 r file_szs).1 = -1) ∧
    (∀ (cmd a b : Str) (rest : List Str),
      (getredirect (cmd :: REDIRECT :: a :: REDIRECT :: b :: rest) 5 r file_szs).1 = -1) := by
  have key : ∀ (tokens : List Str) (numtokens : Int) (i : Nat), (i : Int) < numtokens →
      slot tokens i = REDIRECT → (i : Int) ≠ numtokens - 2 →
      (getredirect tokens numtokens r file_szs).1 = -1 := by
    intro tokens numtokens i hi htok hpos
    have hm : redirectMisplaced tokens numtokens numtokens.toNat 0 = true :=
      (redirectMisplaced_getredirect tokens numtokens).2 ⟨i, hi, htok, hpos⟩
    simp [getredirect, hm]
  refine ⟨key, ?_, ?_, ?_⟩
  · intro cmd rest
    exact key _ 2 1 (by decide) (by simp [slot]) (by decide)
  · intro cmd a b rest
    exact key _ 4 1 (by decide) (by simp [slot]) (by decide)
  · intro cmd a b rest
    exact key _ 5 1 (by decide) (by simp [slot]) (by decide)

/-- Witness for C2: the sequence `ls >`. -/
theorem getredirect_misplaced_witness :
    ((1 : Nat) : Int) < 2 ∧ slot ["ls".toList, REDIRECT] (1 : Nat) = REDIRECT ∧
    ((1 : Nat) : Int) ≠ 2 - 2 ∧
    (getredirect ["ls".toList, REDIRECT] 2
      { numcmdtokens := 0, redirect_output := 0, outfile := [], errfile := [] }
      MAX_LINE_LEN).1 = -1 :=
  ⟨by decide, by decide, by decide,
    (getredirect_misplaced _ MAX_LINE_LEN).1 ["ls".toList, REDIRECT] 2 1
      (by decide) (by decide) (by decide)⟩

/-- C3: for a sequence of more than two tokens whose only `">"` is at index
`numtokens - 2` and whose last token has at most 123 characters, `getredirect`
with the buffer size of `runprog` returns 0 with command-token count
`numtokens - 2`, redirection flag 1 and the targets `base ++ ".out"` and
`base ++ ".err"`. -/
theorem getredirect_targets (tokens : List Str) (numtokens : Int) (r : Redirect)
    (hn : 2 < numtokens)
    (honly : ∀ i : Nat, (i : Int) < numtokens →
      (slot tokens i = REDIRECT ↔ (i : Int) = numtokens - 2))
    (hbase : (slot tokens (numtokens - 1)).length ≤ 123) :
    getredirect tokens numtokens r MAX_LINE_LEN =
      (0, { numcmdtokens := numtokens - 2, redirect_output := 1,
            outfile := slot tokens (numtokens - 1) ++ ".out".toList,
            errfile := slot tokens (numtokens - 1) ++ ".err".toList }) := by
  have hm : redirectMisplaced tokens numtokens numtokens.toNat 0 = false := by
    rw [Bool.eq_false_iff]
    intro h
    obtain ⟨i, hi, h1, h2⟩ := (redirectMisplaced_getredirect tokens numtokens).1 h
    exact h2 ((honly i hi).1 h1)
  have hred : slot tokens (numtokens - 2) = REDIRECT := by
    have := (honly (numtokens - 2).toNat (by omega)).2 (by omega)
    rwa [show (((numtokens - 2).toNat : Nat) : Int) = numtokens - 2 by omega] at this
  have h1 : min (MAX_LINE_LEN - 1) (slot tokens (numtokens - 1)).length
      = (slot tokens (numtokens - 1)).length := by
    simp only [MAX_LINE_LEN]; omega
  have h2 : (slot tokens (numtokens - 1)).length < MAX_LINE_LEN := by
    simp only [MAX_LINE_LEN]; omega
  have h3 : ¬ MAX_LINE_LEN ≤ (slot tokens (numtokens - 1)).length + 4 := by
    simp only [MAX_LINE_LEN]; omega
  have h4 : 4 ≤ MAX_LINE_LEN - 1 - (slot tokens (numtokens - 1)).length := by
    simp only [MAX_LINE_LEN]; omega
  have ht : List.take (MAX_LINE_LEN - 1) (slot tokens (numtokens - 1))
      = slot tokens (numtokens - 1) :=
    List.take_of_length_le (by simp only [MAX_LINE_LEN]; omega)
  have hne : MAX_LINE_LEN ≠ 0 := by decide
  simp only [getredirect, hm, hn, gt_iff_lt, (strncmp_REDIRECT _).2 hred, strlcpy, strlcat, hne,
    if_false, ht, ge_iff_le, Nat.not_le.2 h2, List.length_cons, List.length_nil,
    h3, and_self, if_true, Bool.false_eq_true]
  rw [List.take_of_length_le (by simpa using h4), List.take_of_length_le (by simpa using h4)]
  rfl

/-- Witness for C3: the sequence `ls > out`. -/
theorem getredirect_targets_witness :
    (2 : Int) < 3 ∧
    (∀ i : Nat, (i : Int) < 3 →
      (slot ["ls".toList, REDIRECT, "out".toList] i = REDIRECT ↔ (i : Int) = 3 - 2)) ∧
    (slot ["ls".toList, REDIRECT, "out".toList] (3 - 1)).length ≤ 123 ∧
    getredirect ["ls".toList, REDIRECT, "out".toList] 3
        { numcmdtokens := 0, redirect_output := 0, outfile := [], errfile := [] } MAX_LINE_LEN =
      (0, { numcmdtokens := 1, redirect_output := 1,
            outfile := "out.out".toList, errfile := "out.err".toList }) := by
  have honly : ∀ i : Nat, (i : Int) < 3 →
      (slot ["ls".toList, REDIRECT, "out".toList] i = REDIRECT ↔ (i : Int) = 3 - 2) := by
    intro i hi
    have hi3 : i < 3 := by omega
    interval_cases i <;> simp [slot, REDIRECT]
  exact ⟨by decide, honly, by decide,
    getredirect_targets ["ls".toList, REDIRECT, "out".toList] 3 _ (by decide) honly (by decide)⟩

/-- C4 as stated fails on `[">", "a"]`: `getredirect` returns 0 and reports two
command tokens, the first of which is `">"`, with the redirection flag at 0. -/
theorem getredirect_leading_redirect :
    (getredirect [REDIRECT, "a".toList] 2
      { numcmdtokens := 0, redirect_output := 0, outfile := [], errfile := [] }
      MAX_LINE_LEN).1 = 0 ∧
    (getredirect [REDIRECT, "a".toList] 2
      { numcmdtokens := 0, redirect_output := 0, outfile := [], errfile := [] }
      MAX_LINE_LEN).2.numcmdtokens = 2 ∧
    slot [REDIRECT, "a".toList] (0 : Nat) = REDIRECT ∧
    (getredirect [REDIRECT, "a".toList] 2
      { numcmdtokens := 0, redirect_output := 0, outfile := [], errfile := [] }
      MAX_LINE_LEN).2.redirect_output = 0 := by
  decide

/-- C4, amended: when `getredirect` returns 0 on a sequence that is not a
two-token sequence starting with `">"`, then either the sequence holds a `">"`,
at index `numtokens - 2`, the flag is 1 and the command tokens are the
`numtokens - 2` tokens before it, or it holds none, the flag is 0 and all
tokens are command tokens; in both cases no command token is `">"`.  On every
two-token sequence `[">", x]` with `x` other than `">"`, `getredirect` returns
0 with two command tokens and the flag at 0, the targets left alone. -/
theorem getredirect_command_tokens (tokens : List Str) (numtokens : Int) (r : Redirect)
    (file_szs : Nat) :
    ((getredirect tokens numtokens r file_szs).1 = 0 →
      ¬ (numtokens = 2 ∧ slot tokens (0 : Nat) = REDIRECT) →
      (∀ i : Nat, (i : Int) < (getredirect tokens numtokens r file_szs).2.numcmdtokens →
        slot tokens i ≠ REDIRECT) ∧
      ((∃ i : Nat, (i : Int) < numtokens ∧ slot tokens i = REDIRECT) →
        (getredirect tokens numtokens r file_szs).2.redirect_output = 1 ∧
        (getredirect tokens numtokens r file_szs).2.numcmdtokens = numtokens - 2 ∧
        slot tokens (numtokens - 2) = REDIRECT) ∧
      ((∀ i : Nat, (i : Int) < numtokens → slot tokens i ≠ REDIRECT) →
        (getredirect tokens numtokens r file_szs).2.redirect_output = 0 ∧
        (getredirect tokens numtokens r file_szs).2.numcmdtokens = numtokens)) ∧
    ((getredirect tokens numtokens r file_szs).1 = 0 →
      (numtokens = 2 ∧ slot tokens (0 : Nat) = REDIRECT) →
      (getredirect tokens numtokens r file_szs).2.numcmdtokens = 2 ∧
      (getredirect tokens numtokens r file_szs).2.redirect_output = 0) ∧
    (numtokens = 2 → slot tokens (0 : Nat) = REDIRECT → slot tokens (1 : Nat) ≠ REDIRECT →
      getredirect tokens numtokens r file_szs =
        (0, { numcmdtokens := 2, redirect_output := 0,
              outfile := r.outfile, errfile := r.errfile })) := by
  refine ⟨?_, ?_, ?_⟩
  · intro hok hexc
    obtain ⟨hm, hcase⟩ := getredirect_ok tokens numtokens r file_szs hok
    have hpos : ∀ i : Nat, (i : Int) < numtokens → slot tokens i = REDIRECT →
        (i : Int) = numtokens - 2 := by
      intro i hi h1
      by_contra h2
      have := (redirectMisplaced_getredirect tokens numtokens).2 ⟨i, hi, h1, h2⟩
      rw [hm] at this
      exact Bool.false_ne_true this
    rcases hcase with ⟨hn, hred, hcnt, hflag⟩ | ⟨hnot, hcnt, hflag⟩
    · refine ⟨?_, fun _ => ⟨hflag, hcnt, hred⟩, ?_⟩
      · intro i hi h1
        rw [hcnt] at hi
        have := hpos i (by omega) h1
        omega
      · intro hnone
        have := hnone (numtokens - 2).toNat (by omega)
        rw [show (((numtokens - 2).toNat : Nat) : Int) = numtokens - 2 by omega] at this
        exact absurd hred this
    · have hnone : ∀ i : Nat, (i : Int) < numtokens → slot tokens i ≠ REDIRECT := by
        intro i hi h1
        have h2 := hpos i hi h1
        by_cases hn : numtokens > 2
        · apply hnot
          refine ⟨hn, ?_⟩
          rw [← h2]; exact h1
        · have hi0 : i = 0 := by omega
          subst hi0
          exact hexc ⟨by omega, h1⟩
      refine ⟨?_, ?_, fun _ => ⟨hflag, hcnt⟩⟩
      · intro i hi
        rw [hcnt] at hi
        exact hnone i hi
      · rintro ⟨i, hi, h1⟩
        exact absurd h1 (hnone i hi)
  · intro hok hexc
    obtain ⟨h2, _⟩ := hexc
    obtain ⟨_, hcase⟩ := getredirect_ok tokens numtokens r file_szs hok
    rcases hcase with ⟨hn, _, _, _⟩ | ⟨_, hcnt, hflag⟩
    · omega
    · exact ⟨by rw [hcnt, h2], hflag⟩
  · intro h2 h0 h1
    have hm : redirectMisplaced tokens numtokens numtokens.toNat 0 = false := by
      rw [Bool.eq_false_iff]
      intro h
      obtain ⟨i, hi, hr, hne⟩ := (redirectMisplaced_getredirect tokens numtokens).1 h
      have hi1 : i = 1 := by omega
      subst hi1
      exact h1 hr
    have hbr : ¬ (numtokens > 2 ∧ strncmp (slot tokens (numtokens - 2)) REDIRECT 2 = 0) := by
      rintro ⟨hn, _⟩
      omega
    simp only [getredirect, hm, Bool.false_eq_true, if_false]
    rw [if_neg hbr, h2]

/-- Witness for C4 as amended: the sequences `ls > out` and `> b`. -/
theorem getredirect_command_tokens_witness :
    ((getredirect ["ls".toList, REDIRECT, "out".toList] 3
        { numcmdtokens := 0, redirect_output := 0, outfile := [], errfile := [] }
        MAX_LINE_LEN).1 = 0 ∧
      ¬ ((3 : Int) = 2 ∧ slot ["ls".toList, REDIRECT, "out".toList] (0 : Nat) = REDIRECT) ∧
      (∃ i : Nat, (i : Int) < 3 ∧ slot ["ls".toList, REDIRECT, "out".toList] i = REDIRECT) ∧
      (∀ i : Nat, (i : Int) < (getredirect ["ls".toList, REDIRECT, "out".toList] 3
          { numcmdtokens := 0, redirect_output := 0, outfile := [], errfile := [] }
          MAX_LINE_LEN).2.numcmdtokens →
        slot ["ls".toList, REDIRECT, "out".toList] i ≠ REDIRECT) ∧
      (getredirect ["ls".toList, REDIRECT, "out".toList] 3
        { numcmdtokens := 0, redirect_output := 0, outfile := [], errfile := [] }
        MAX_LINE_LEN).2.redirect_output = 1) ∧
    (slot [REDIRECT, "b".toList] (0 : Nat) = REDIRECT ∧
      slot [REDIRECT, "b".toList] (1 : Nat) ≠ REDIRECT ∧
      getredirect [REDIRECT, "b".toList] 2
          { numcmdtokens := 0, redirect_output := 0, outfile := [], errfile := [] }
          MAX_LINE_LEN
        = (0, { numcmdtokens := 2, redirect_output := 0, outfile := [], errfile := [] })) := by
  have h := (getredirect_command_tokens ["ls".toList, REDIRECT, "out".toList] 3
    { numcmdtokens := 0, redirect_output := 0, outfile := [], errfile := [] }
    MAX_LINE_LEN).1 (by decide) (by decide)
  have hex : ∃ i : Nat, (i : Int) < 3 ∧
      slot ["ls".toList, REDIRECT, "out".toList] i = REDIRECT := ⟨1, by decide, by decide⟩
  exact ⟨⟨by decide, by decide, hex, h.1, (h.2.1 hex).1⟩,
    by decide, by decide,
    (getredirect_command_tokens [REDIRECT, "b".toList] 2
      { numcmdtokens := 0, redirect_output := 0, outfile := [], errfile := [] }
      MAX_LINE_LEN).2.2 rfl (by decide) (by decide)⟩

/-- C5: with every candidate of the search path fitting the destination
buffer, `getcmdpath` returns 0 exactly when some directory among the first
`size` entries has an existing candidate, and -1 with `dst` untouched otherwise;
on success `dst` holds the candidate of the earliest such directory. -/
theorem getcmdpath_earliest (stat : Str → Bool) (cmd : Str) (path : path_t) (dst : Str)
    (dstsize : Nat) (hsize : path.size ≤ path.pathdirs.length)
    (hfit : ∀ d ∈ path.entries, (candidate d cmd).length < dstsize) :
    ((∃ p, (getcmdpath stat cmd path dst dstsize).1 = some (0, p)) ↔
      ∃ d ∈ path.entries, stat (candidate d cmd) = true) ∧
    ((¬ ∃ d ∈ path.entries, stat (candidate d cmd) = true) →
      (getcmdpath stat cmd path dst dstsize).1 = some (-1, dst)) ∧
    (∀ (i : Nat) (hi : i < path.entries.length),
      stat (candidate path.entries[i] cmd) = true →
      (∀ (j : Nat) (hj : j < i),
        stat (candidate (path.entries.get ⟨j, Nat.lt_trans hj hi⟩) cmd) = false) →
      (getcmdpath stat cmd path dst dstsize).1 = some (0, candidate path.entries[i] cmd)) := by
  have hfind := getcmdpath_find stat cmd path dst dstsize hsize hfit
  refine ⟨⟨?_, ?_⟩, ?_, ?_⟩
  · rintro ⟨p, hp⟩
    rw [hp] at hfind
    cases hf : (path.entries.map (fun d => candidate d cmd)).find? stat with
    | none => rw [hf] at hfind; simp at hfind
    | some q =>
      obtain ⟨d, hd, hdq⟩ := List.mem_map.1 (List.mem_of_find?_eq_some hf)
      refine ⟨d, hd, ?_⟩
      have hq : stat q = true := List.find?_some hf
      rwa [← hdq] at hq
  · rintro ⟨d, hd, hs⟩
    cases hf : (path.entries.map (fun d => candidate d cmd)).find? stat with
    | none =>
      have := List.find?_eq_none.1 hf (candidate d cmd) (List.mem_map.2 ⟨d, hd, rfl⟩)
      exact absurd hs this
    | some q => rw [hf] at hfind; exact ⟨q, hfind⟩
  · intro hnone
    cases hf : (path.entries.map (fun d => candidate d cmd)).find? stat with
    | none => rw [hf] at hfind; exact hfind
    | some q =>
      obtain ⟨d, hd, hdq⟩ := List.mem_map.1 (List.mem_of_find?_eq_some hf)
      have hq : stat q = true := List.find?_some hf
      rw [← hdq] at hq
      exact absurd ⟨d, hd, hq⟩ hnone
  · intro i hi hs hfirst
    have hlen : i < (path.entries.map (fun d => candidate d cmd)).length := by simpa using hi
    have := find?_eq_getElem_of_first stat (path.entries.map (fun d => candidate d cmd)) i hlen
      (by simpa using hs) (fun j hj => by simpa using hfirst j hj)
    rw [this] at hfind
    simpa using hfind

/-- Witness for C5: the search path `/a`, `/b` with `ls` present in both. -/
theorem getcmdpath_earliest_witness :
    (getcmdpath (fun _ => true) "ls".toList
      { pathdirs := ["/a".toList, "/b".toList], size := 2 } [] 1025).1
      = some (0, "/a/ls".toList) :=
  (getcmdpath_earliest (fun _ => true) "ls".toList
    { pathdirs := ["/a".toList, "/b".toList], size := 2 } [] 1025 (by decide)
    (by simp [path_t.entries, candidate])).2.2 0 (by decide) rfl
    (fun j hj => absurd hj (Nat.not_lt_zero j))

/-- C6 as stated fails for the empty directory string: it does not end with
`/`, yet `buildpath` inserts no separator and the candidate is the bare name. -/
theorem buildpath_empty_dir :
    buildpath [] "ls".toList 1025 = some "ls".toList ∧
    specCandidate [] "ls".toList = "/ls".toList ∧
    buildpath [] "ls".toList 1025 ≠ some (specCandidate [] "ls".toList) := by
  decide

/-- C6, amended: when the candidate fits the buffer, `buildpath` forms the
directory followed by the name, with `/` between them unless the directory is
empty or already ends with `/`; for a non-empty directory this is the path the
specification describes. -/
theorem buildpath_candidate (dir name : Str) (dircapacity : Nat)
    (hfit : (candidate dir name).length < dircapacity) :
    buildpath dir name dircapacity
      = some (dir ++ (if dir = [] ∨ dir.getLast? = some '/' then [] else ['/']) ++ name) ∧
    (dir ≠ [] → buildpath dir name dircapacity = some (specCandidate dir name)) := by
  rw [buildpath_eq_candidate dir name dircapacity hfit]
  constructor
  · unfold candidate
    split_ifs <;> simp
  · intro hne
    simp [candidate, specCandidate, hne]

/-- Witness for C6 as amended: the directories `/bin`, `/bin/` and the empty one. -/
theorem buildpath_candidate_witness :
    (candidate "/bin".toList "ls".toList).length < 1025 ∧
    buildpath "/bin".toList "ls".toList 1025 = some "/bin/ls".toList ∧
    buildpath "/bin/".toList "ls".toList 1025 = some "/bin/ls".toList ∧
    buildpath [] "ls".toList 1025 = some "ls".toList :=
  ⟨by decide,
    (buildpath_candidate "/bin".toList "ls".toList 1025 (by decide)).1,
    (buildpath_candidate "/bin/".toList "ls".toList 1025 (by decide)).1,
    (buildpath_candidate [] "ls".toList 1025 (by decide)).1⟩

/-- C7: `runcmd` hands the tokens to `runprog` when the first token is none of
`exit`, `pwd`, `cd`, `path` (compared whole and case-sensitively, so `pa`,
`exitx` and `CD` are handed over); when it is one of them the matching
in-process handler runs instead, which probes no path and creates no child and
whose result does not depend on which files exist or on `fork`. -/
theorem runcmd_builtin_or_runprog (env : Env) (tokens : List Str) (numtokens : Int) (w : World) :
    (slot tokens 0 ∉ ["exit".toList, "pwd".toList, "cd".toList, "path".toList] →
      runcmd env tokens numtokens w = runprog env tokens numtokens w) ∧
    (slot tokens 0 = "exit".toList →
      runcmd env tokens numtokens w = { w with exited := some 0 }) ∧
    (slot tokens 0 = "pwd".toList →
      runcmd env tokens numtokens w
        = { w with trace := w.trace ++ [Event.print (w.cwd ++ ['\n'])] }) ∧
    (slot tokens 0 = "cd".toList →
      runcmd env tokens numtokens w = changedirectory env tokens numtokens w) ∧
    (slot tokens 0 = "path".toList →
      runcmd env tokens numtokens w = { w with path := setpath tokens numtokens w.path }) ∧
    (slot tokens 0 ∈ ["exit".toList, "pwd".toList, "cd".toList, "path".toList] →
      (∃ added, (runcmd env tokens numtokens w).trace = w.trace ++ added ∧
        ∀ e ∈ added, e.isLaunch = false) ∧
      (∀ env2 : Env, env2.home = env.home → env2.chdir = env.chdir →
        runcmd env2 tokens numtokens w = runcmd env tokens numtokens w)) ∧
    (∀ name ∈ ["pa".toList, "exitx".toList, "CD".toList], ∀ rest : List Str,
      runcmd env (name :: rest) numtokens w = runprog env (name :: rest) numtokens w) := by
  refine ⟨runcmd_other env tokens numtokens w, runcmd_exit env tokens numtokens w,
    runcmd_pwd env tokens numtokens w, runcmd_cd env tokens numtokens w,
    runcmd_path env tokens numtokens w, ?_, ?_⟩
  · intro hmem
    simp only [List.mem_cons, List.mem_singleton, List.not_mem_nil, or_false] at hmem
    rcases hmem with h | h | h | h
    · refine ⟨⟨[], ?_, by simp⟩, fun env2 _ _ => ?_⟩
      · rw [runcmd_exit env tokens numtokens w h]; simp
      · rw [runcmd_exit env tokens numtokens w h, runcmd_exit env2 tokens numtokens w h]
    · refine ⟨⟨[Event.print (w.cwd ++ ['\n'])], ?_, by simp [Event.isLaunch]⟩, fun env2 _ _ => ?_⟩
      · rw [runcmd_pwd env tokens numtokens w h]
      · rw [runcmd_pwd env tokens numtokens w h, runcmd_pwd env2 tokens numtokens w h]
    · refine ⟨?_, fun env2 hhome hchdir => ?_⟩
      · rw [runcmd_cd env tokens numtokens w h]
        exact changedirectory_trace env tokens numtokens w
      · rw [runcmd_cd env tokens numtokens w h, runcmd_cd env2 tokens numtokens w h]
        exact changedirectory_env env env2 tokens numtokens w hhome hchdir
    · refine ⟨⟨[], ?_, by simp⟩, fun env2 _ _ => ?_⟩
      · rw [runcmd_path env tokens numtokens w h]; simp
      · rw [runcmd_path env tokens numtokens w h, runcmd_path env2 tokens numtokens w h]
  · intro name hname rest
    apply runcmd_other
    have hs : slot (name :: rest) 0 = name := rfl
    rw [hs]
    simp only [List.mem_cons, List.mem_singleton, List.not_mem_nil, or_false] at hname
    rcases hname with h | h | h <;> subst h <;> decide

/-- Witness for C7: the sequences `ls` and `path /a`. -/
theorem runcmd_builtin_or_runprog_witness :
    slot ["ls".toList] 0 ∉ ["exit".toList, "pwd".toList, "cd".toList, "path".toList] ∧
    runcmd sampleEnv ["ls".toList] 1 sampleWorld = runprog sampleEnv ["ls".toList] 1 sampleWorld ∧
    slot ["path".toList, "/a".toList] 0 = "path".toList ∧
    runcmd sampleEnv ["path".toList, "/a".toList] 2 sampleWorld
      = { sampleWorld with path := setpath ["path".toList, "/a".toList] 2 sampleWorld.path } :=
  ⟨by decide,
    (runcmd_builtin_or_runprog sampleEnv ["ls".toList] 1 sampleWorld).1 (by decide),
    by decide,
    (runcmd_builtin_or_runprog sampleEnv ["path".toList, "/a".toList] 2
      sampleWorld).2.2.2.2.1 (by decide)⟩

/-- C8: whatever the search path was, after `setpath` on a token array that
starts with the sequence `[cmd, d1, ..., dk]` its first `size` entries are
`[d1, ..., dk]` and `size` is `k` (zero entries for `k = 0`); so it is after
`runcmd` on `["path", d1, ..., dk]`. -/
theorem setpath_replaces (path : path_t) (cmd : Str) (ds rest : List Str)
    (hcap : ds.length ≤ path.pathdirs.length) :
    (setpath (cmd :: ds ++ rest) ((ds.length : Int) + 1) path).entries = ds ∧
    (setpath (cmd :: ds ++ rest) ((ds.length : Int) + 1) path).size = ds.length ∧
    (ds = [] → (setpath (cmd :: ds ++ rest) ((ds.length : Int) + 1) path).entries = []) ∧
    (∀ (env : Env) (w : World), w.path = path →
      (runcmd env ("path".toList :: ds ++ rest) ((ds.length : Int) + 1) w).path.entries = ds) := by
  have h := setpath_entries cmd ds rest path hcap
  refine ⟨h, by simp [setpath], fun hnil => by rw [h, hnil], ?_⟩
  intro env w hw
  rw [runcmd_path env _ _ w (by simp [slot])]
  simp only [hw]
  exact setpath_entries _ ds rest path hcap

/-- Witness for C8: `path /a /b` on the initial search path, one stale slot after it. -/
theorem setpath_replaces_witness :
    ["/a".toList, "/b".toList].length ≤ init_path.pathdirs.length ∧
    (setpath ("path".toList :: ["/a".toList, "/b".toList] ++ ["stale".toList])
      (([("/a".toList), "/b".toList].length : Int) + 1) init_path).entries
      = ["/a".toList, "/b".toList] :=
  ⟨by simp [init_path, alloc_str_array, MAX_LINE_LEN],
    (setpath_replaces init_path "path".toList ["/a".toList, "/b".toList] ["stale".toList]
      (by simp [init_path, alloc_str_array, MAX_LINE_LEN])).1⟩

set_option maxRecDepth 100000 in
/-- C9 fails in the code: `main` calls `runcmd` with `numtokens = 0` and
`runcmd` reads `tokens[0]`, still holding the command of the line before.  After
the line `path /a` an empty line runs `setpath` again and leaves `size = -1`
and no entries; after the line `ls` an empty line probes `/bin/ls` again and
creates a second child, with an argument vector that is just the NULL pointer;
an empty first line runs the empty command name, which resolves to `/bin/`. -/
theorem empty_line_reruns_stale_command :
    tokenise [] MAX_LINE_LEN (startup ['/']).tokens = some ((startup ['/']).tokens, 0) ∧
    (mainBody sampleEnv (startup ['/']) 0 []).map (fun sh => sh.world.trace)
      = some [Event.print "whoosh> ".toList,
          Event.stat "/bin/".toList,
          Event.spawn "/bin/".toList [none] 0 [] []] ∧
    (mainBody sampleEnv (startup ['/']) 0 "path /a".toList).map
        (fun sh => (sh.world.path.size, sh.world.path.entries))
      = some (1, ["/a".toList]) ∧
    ((mainBody sampleEnv (startup ['/']) 0 "path /a".toList).bind
        (fun sh => mainBody sampleEnv sh 0 [])).map
        (fun sh => (sh.world.path.size, sh.world.path.entries))
      = some (-1, []) ∧
    ((mainBody sampleEnv (startup ['/']) 0 "ls".toList).bind
        (fun sh => mainBody sampleEnv sh 0 [])).map (fun sh => sh.world.trace)
      = some [Event.print "whoosh> ".toList,
          Event.stat "/bin/ls".toList,
          Event.spawn "/bin/ls".toList [some "/bin/ls".toList, none] 0 [] [],
          Event.print "whoosh> ".toList,
          Event.stat "/bin/ls".toList,
          Event.spawn "/bin/ls".toList [none] 0 [] []] := by
  decide

set_option maxRecDepth 100000 in
/-- C10 fails in the code: `argv[0]` is filled by `strlcpy` with capacity
`MAX_LINE_LEN + 1`, so a resolved path longer than 128 characters reaches the
child cut to its first 128 characters while `execv` is given the whole path.
After `path` with a directory of 122 characters, the command `whoami` resolves
to a path of 129 characters and `argv[0]` lacks its last character. -/
theorem argv0_truncated :
    ("path ".toList ++ longDir).length < MAX_LINE_LEN ∧
    ((mainBody sampleEnv (startup ['/']) 0 ("path ".toList ++ longDir)).bind
        (fun sh => mainBody sampleEnv sh 0 "whoami".toList)).map (fun sh => sh.world.trace)
      = some [Event.print "whoosh> ".toList,
          Event.print "whoosh> ".toList,
          Event.stat (longDir ++ "/whoami".toList),
          Event.spawn (longDir ++ "/whoami".toList)
            [some (longDir ++ "/whoam".toList), none] 0 [] []] ∧
    longDir ++ "/whoam".toList ≠ longDir ++ "/whoami".toList := by
  decide

/-- C11: with a search path of size zero `getcmdpath` returns -1, leaves `dst`
alone and probes nothing, whatever the command name and whichever files exist;
`runprog` then only reports one error: no path is probed and no child is
created. -/
theorem getcmdpath_empty_path (path : path_t) (hzero : path.size = 0) :
    (∀ (stat : Str → Bool) (cmd dst : Str) (dstsize : Nat),
      getcmdpath stat cmd path dst dstsize = (some (-1, dst), [])) ∧
    (∀ (env : Env) (tokens : List Str) (numtokens : Int) (w : World), w.path = path →
      runprog env tokens numtokens w = { w with trace := w.trace ++ [Event.error] }) := by
  constructor
  · intro stat cmd dst dstsize
    exact getcmdpath_size_zero stat cmd path dst dstsize hzero
  · intro env tokens numtokens w hw
    rw [runprog_size_zero env tokens numtokens w (by rw [hw]; exact hzero)]
    rfl

/-- Witness for C11: the command `ls` after `path` with no directory. -/
theorem getcmdpath_empty_path_witness :
    (setpath ["path".toList] 1 init_path).size = 0 ∧
    getcmdpath (fun _ => true) "ls".toList (setpath ["path".toList] 1 init_path) [] 1025
      = (some (-1, []), []) :=
  ⟨by decide,
    (getcmdpath_empty_path (setpath ["path".toList] 1 init_path) (by decide)).1
      (fun _ => true) "ls".toList [] 1025⟩

/-- C12: on every line shorter than `MAX_LINE_LEN`, `tokenise` returns, and each
of the `numtokens` tokens it leaves in the array is non-empty and holds neither
a space nor a tab. -/
theorem tokenise_tokens_clean (tokens : List Str) (htok : tokens.length = MAX_LINE_LEN)
    (line : Str) (hline : line.length < MAX_LINE_LEN) :
    ∃ tokens' numtokens, tokenise line MAX_LINE_LEN tokens = some (tokens', numtokens) ∧
      ∀ i : Nat, (i : Int) < numtokens →
        slot tokens' i ≠ [] ∧ ' ' ∉ slot tokens' i ∧ '\t' ∉ slot tokens' i := by
  obtain ⟨tk, h1, _, h3, _⟩ := tokenise_eq line tokens hline htok
  refine ⟨tk, _, h1, ?_⟩
  intro i hi
  have hi2 : i < (splitFields line).length := by omega
  rw [slot_of_take tk _ _ h3 i hi2]
  obtain ⟨hne, hclean⟩ := splitFields_mem line.length line (Nat.le_refl _) _
    (List.get_mem (splitFields line) i hi2)
  refine ⟨hne, fun hsp => ?_, fun htab => ?_⟩
  · exact hclean ' ' hsp (by simp [ARG_DELIM])
  · exact hclean '\t' htab (by simp [ARG_DELIM])

/-- Witness for C12: the line `ls -l` and the freshly allocated token array. -/
theorem tokenise_tokens_clean_witness :
    (alloc_str_array MAX_LINE_LEN).length = MAX_LINE_LEN ∧
    "ls -l".toList.length < MAX_LINE_LEN ∧
    ∃ tokens' numtokens,
      tokenise "ls -l".toList MAX_LINE_LEN (alloc_str_array MAX_LINE_LEN)
        = some (tokens', numtokens) ∧
      ∀ i : Nat, (i : Int) < numtokens →
        slot tokens' i ≠ [] ∧ ' ' ∉ slot tokens' i ∧ '\t' ∉ slot tokens' i :=
  ⟨by simp [alloc_str_array], by decide,
    tokenise_tokens_clean (alloc_str_array MAX_LINE_LEN) (by simp [alloc_str_array])
      "ls -l".toList (by decide)⟩

/-- C13: on a line of length `L < MAX_LINE_LEN`, `tokenise` returns without
writing out of bounds; it produces at most `(L + 1) / 2` tokens, fewer than
`MAX_LINE_LEN`; each token has at most `L` characters and the token lengths add
up to at most `L`. -/
theorem tokenise_bounds (tokens : List Str) (htok : tokens.length = MAX_LINE_LEN)
    (line : Str) (hline : line.length < MAX_LINE_LEN) :
    ∃ (tokens' : List Str) (k : Nat),
      tokenise line MAX_LINE_LEN tokens = some (tokens', (k : Int)) ∧
      tokens'.length = MAX_LINE_LEN ∧
      k ≤ (line.length + 1) / 2 ∧ k < MAX_LINE_LEN ∧
      (∀ i : Nat, i < k → (slot tokens' (i : Int)).length ≤ line.length) ∧
      ((tokens'.take k).map List.length).sum ≤ line.length := by
  obtain ⟨tk, h1, h2, h3, _⟩ := tokenise_eq line tokens hline htok
  have hsum := splitFields_sum line.length line (Nat.le_refl _)
  have hge := length_le_sum_length (splitFields line)
    (fun f hf => (splitFields_mem line.length line (Nat.le_refl _) f hf).1)
  have hk : (splitFields line).length ≤ (line.length + 1) / 2 := by omega
  have htot : ((splitFields line).map List.length).sum ≤ line.length := by
    by_cases h0 : (splitFields line).length = 0
    · rw [List.length_eq_zero.1 h0]; simp
    · omega
  refine ⟨tk, (splitFields line).length, h1, by rw [h2, htok], hk, ?_, ?_, ?_⟩
  · simp only [MAX_LINE_LEN] at hline ⊢; omega
  · intro i hi
    rw [slot_of_take tk _ _ h3 i hi]
    have hmem : ((splitFields line).get ⟨i, hi⟩).length ∈ (splitFields line).map List.length :=
      List.mem_map.2 ⟨_, List.get_mem (splitFields line) i hi, rfl⟩
    exact Nat.le_trans (List.le_sum_of_mem hmem) htot
  · rw [h3]; exact htot

/-- Witness for C13: the line `ls -l` and the freshly allocated token array. -/
theorem tokenise_bounds_witness :
    (alloc_str_array MAX_LINE_LEN).length = MAX_LINE_LEN ∧
    "ls -l".toList.length < MAX_LINE_LEN ∧
    ∃ (tokens' : List Str) (k : Nat),
      tokenise "ls -l".toList MAX_LINE_LEN (alloc_str_array MAX_LINE_LEN)
        = some (tokens', (k : Int)) ∧
      tokens'.length = MAX_LINE_LEN ∧
      k ≤ ("ls -l".toList.length + 1) / 2 ∧ k < MAX_LINE_LEN ∧
      (∀ i : Nat, i < k → (slot tokens' (i : Int)).length ≤ "ls -l".toList.length) ∧
      ((tokens'.take k).map List.length).sum ≤ "ls -l".toList.length :=
  ⟨by simp [alloc_str_array], by decide,
    tokenise_bounds (alloc_str_array MAX_LINE_LEN) (by simp [alloc_str_array])
      "ls -l".toList (by decide)⟩

/-- C14: for a sequence of more than two tokens whose only `">"` is at index
`numtokens - 2`, `getredirect` returns -1 exactly when the base name plus a
four-character suffix does not fit, that is when `length base + 4 ≥ file_szs`
(with `file_szs = MAX_LINE_LEN` in `runprog`: at 124 characters or more);
otherwise it returns 0 and the targets are the whole `base ++ ".out"` and
`base ++ ".err"`. -/
theorem getredirect_fails_iff (tokens : List Str) (numtokens : Int) (r : Redirect)
    (file_szs : Nat) (hn : 2 < numtokens)
    (honly : ∀ i : Nat, (i : Int) < numtokens →
      (slot tokens i = REDIRECT ↔ (i : Int) = numtokens - 2)) :
    ((getredirect tokens numtokens r file_szs).1 = -1 ↔
      (slot tokens (numtokens - 1)).length + 4 ≥ file_szs) ∧
    ((getredirect tokens numtokens r file_szs).1 ≠ -1 →
      (getredirect tokens numtokens r file_szs).1 = 0 ∧
      (getredirect tokens numtokens r file_szs).2.outfile
        = slot tokens (numtokens - 1) ++ ".out".toList ∧
      (getredirect tokens numtokens r file_szs).2.errfile
        = slot tokens (numtokens - 1) ++ ".err".toList) ∧
    ((getredirect tokens numtokens r MAX_LINE_LEN).1 = -1 ↔
      124 ≤ (slot tokens (numtokens - 1)).length) := by
  have hm : redirectMisplaced tokens numtokens numtokens.toNat 0 = false := by
    rw [Bool.eq_false_iff]
    intro h
    obtain ⟨i, hi, h1, h2⟩ := (redirectMisplaced_getredirect tokens numtokens).1 h
    exact h2 ((honly i hi).1 h1)
  have hred : slot tokens (numtokens - 2) = REDIRECT := by
    have := (honly (numtokens - 2).toNat (by omega)).2 (by omega)
    rwa [show (((numtokens - 2).toNat : Nat) : Int) = numtokens - 2 by omega] at this
  have key : ∀ fsz : Nat, ((getredirect tokens numtokens r fsz).1 = -1 ↔
      (slot tokens (numtokens - 1)).length + 4 ≥ fsz) := by
    intro fsz
    obtain ⟨hbad, hgood⟩ := getredirect_clause tokens numtokens r fsz hm hn hred
    constructor
    · intro hrc
      by_contra hlt
      rw [hgood (by omega)] at hrc
      simp at hrc
    · intro hge
      exact hbad hge
  refine ⟨key file_szs, ?_, ?_⟩
  · intro hne
    have hlt : (slot tokens (numtokens - 1)).length + 4 < file_szs := by
      by_contra hge
      exact hne ((key file_szs).2 (by omega))
    rw [(getredirect_clause tokens numtokens r file_szs hm hn hred).2 hlt]
    exact ⟨rfl, rfl, rfl⟩
  · rw [key MAX_LINE_LEN]
    simp only [MAX_LINE_LEN]
    omega

/-- Witness for C14: `ls > base` with a base name of 124 characters fails and
with one of 123 characters succeeds. -/
theorem getredirect_fails_iff_witness :
    (getredirect ["ls".toList, REDIRECT, List.replicate 124 'a'] 3
      { numcmdtokens := 0, redirect_output := 0, outfile := [], errfile := [] }
      MAX_LINE_LEN).1 = -1 ∧
    ¬ (getredirect ["ls".toList, REDIRECT, List.replicate 123 'a'] 3
      { numcmdtokens := 0, redirect_output := 0, outfile := [], errfile := [] }
      MAX_LINE_LEN).1 = -1 := by
  have honly : ∀ (base : Str), base ≠ REDIRECT → ∀ i : Nat, (i : Int) < 3 →
      (slot ["ls".toList, REDIRECT, base] i = REDIRECT ↔ (i : Int) = 3 - 2) := by
    intro base hbase i hi
    have hi3 : i < 3 := by omega
    interval_cases i
    · simp [slot, REDIRECT]
    · simp [slot]
    · simpa [slot] using hbase
  have h124 : List.replicate 124 'a' ≠ REDIRECT := by
    intro h
    have := congrArg List.length h
    rw [List.length_replicate] at this
    exact absurd this (by decide)
  have h123 : List.replicate 123 'a' ≠ REDIRECT := by
    intro h
    have := congrArg List.length h
    rw [List.length_replicate] at this
    exact absurd this (by decide)
  constructor
  · exact (getredirect_fails_iff _ 3 _ MAX_LINE_LEN (by decide) (honly _ h124)).2.2.2
      (by simp [slot])
  · intro h
    have := (getredirect_fails_iff _ 3 _ MAX_LINE_LEN (by decide) (honly _ h123)).2.2.1 h
    simp [slot] at this

/-- C15: when `getredirect` returns -1, `runprog` adds one error to the trace and
nothing else, so no path is probed; when `getredirect` returns 0 and
`getcmdpath` returns -1, it adds the probes followed by one error.  In both
cases no child is created (and with it no redirection target), and the search
path, the working directory and the exit status are as before: control goes
back to the caller. -/
theorem runprog_reports_once (env : Env) (tokens : List Str) (numtokens : Int) (w : World) :
    ((getredirect tokens numtokens
        { numcmdtokens := 0, redirect_output := 0, outfile := [], errfile := [] }
        MAX_LINE_LEN).1 = -1 →
      runprog env tokens numtokens w = { w with trace := w.trace ++ [Event.error] }) ∧
    ((getredirect tokens numtokens
        { numcmdtokens := 0, redirect_output := 0, outfile := [], errfile := [] }
        MAX_LINE_LEN).1 = 0 →
      ∀ dst, (getcmdpath env.stat (slot tokens 0) w.path [] (env.maxpathlen + 1)).1
          = some (-1, dst) →
        ∃ probes : List Str,
          runprog env tokens numtokens w
            = { w with trace := w.trace ++ (probes.map Event.stat ++ [Event.error]) } ∧
          (probes.map Event.stat ++ [Event.error]).count Event.error = 1 ∧
          ∀ (cmdpath : Str) (argv : List (Option Str)) (flag : Int) (outfile errfile : Str),
            Event.spawn cmdpath argv flag outfile errfile
              ∉ probes.map Event.stat ++ [Event.error]) := by
  constructor
  · intro hrc
    rw [runprog_parse_error env tokens numtokens w hrc]
    rfl
  · intro hrc dst hgp
    refine ⟨(getcmdpath env.stat (slot tokens 0) w.path [] (env.maxpathlen + 1)).2, ?_, ?_, ?_⟩
    · rw [runprog_not_found env tokens numtokens w dst hrc hgp]
      simp [print_error]
    · rw [List.count_append]
      have h0 : ∀ l : List Str, (l.map Event.stat).count Event.error = 0 := by
        intro l
        apply List.count_eq_zero.2
        simp
      rw [h0]
      simp
    · intro cmdpath argv flag outfile errfile hmem
      simp at hmem

/-- Witness for C15: `ls >` fails to parse; `ls` is not found when no file
exists. -/
theorem runprog_reports_once_witness :
    runprog sampleEnv ["ls".toList, REDIRECT] 2 sampleWorld
      = { sampleWorld with trace := sampleWorld.trace ++ [Event.error] } ∧
    ∃ probes : List Str,
      runprog { sampleEnv with stat := fun _ => false } ["ls".toList] 1 sampleWorld
        = { sampleWorld with
            trace := sampleWorld.trace ++ (probes.map Event.stat ++ [Event.error]) } ∧
      (probes.map Event.stat ++ [Event.error]).count Event.error = 1 ∧
      ∀ (cmdpath : Str) (argv : List (Option Str)) (flag : Int) (outfile errfile : Str),
        Event.spawn cmdpath argv flag outfile errfile
          ∉ probes.map Event.stat ++ [Event.error] :=
  ⟨(runprog_reports_once sampleEnv ["ls".toList, REDIRECT] 2 sampleWorld).1 (by decide),
    (runprog_reports_once { sampleEnv with stat := fun _ => false } ["ls".toList] 1
      sampleWorld).2 (by decide) [] (by decide)⟩

/-- C16: when the first token is not exactly `path`, `runcmd` leaves the search
path as it was, its size and its entries alike, whichever handler runs. -/
theorem runcmd_keeps_path (env : Env) (tokens : List Str) (numtokens : Int) (w : World)
    (hcmd : slot tokens 0 ≠ "path".toList) :
    (runcmd env tokens numtokens w).path = w.path ∧
    (runcmd env tokens numtokens w).path.size = w.path.size ∧
    (runcmd env tokens numtokens w).path.entries = w.path.entries := by
  have h : (runcmd env tokens numtokens w).path = w.path := by
    have hne : ¬ slot tokens 0 = ['p', 'a', 't', 'h'] := hcmd
    rw [runcmd_path_eq, if_neg hne]
  exact ⟨h, by rw [h], by rw [h]⟩

/-- Witness for C16: the commands `ls -l` and `cd /tmp` on the initial search
path. -/
theorem runcmd_keeps_path_witness :
    slot ["ls".toList, "-l".toList] 0 ≠ "path".toList ∧
    (runcmd sampleEnv ["ls".toList, "-l".toList] 2 sampleWorld).path = sampleWorld.path ∧
    (runcmd sampleEnv ["cd".toList, "/tmp".toList] 2 sampleWorld).path = sampleWorld.path :=
  ⟨by decide,
    (runcmd_keeps_path sampleEnv ["ls".toList, "-l".toList] 2 sampleWorld (by decide)).1,
    (runcmd_keeps_path sampleEnv ["cd".toList, "/tmp".toList] 2 sampleWorld (by decide)).1⟩

/-- C17: with one token and no value for `HOME`, `changedirectory` adds one
error to the trace and nothing else: `chdir` is not called, the working
directory is as before and the process has not exited; so it is for `runcmd` on
the sequence `["cd"]`. -/
theorem changedirectory_no_home (env : Env) (hhome : env.home = none) (tokens : List Str)
    (w : World) :
    changedirectory env tokens 1 w = { w with trace := w.trace ++ [Event.error] } ∧
    (slot tokens 0 = "cd".toList →
      runcmd env tokens 1 w = { w with trace := w.trace ++ [Event.error] }) := by
  have h : changedirectory env tokens 1 w = { w with trace := w.trace ++ [Event.error] } := by
    simp [changedirectory, hhome, print_error]
  exact ⟨h, fun hcd => by rw [runcmd_cd env tokens 1 w hcd, h]⟩

/-- Witness for C17: the sequence `cd` in an environment without `HOME`. -/
theorem changedirectory_no_home_witness :
    sampleEnv.home = none ∧
    slot ["cd".toList] 0 = "cd".toList ∧
    runcmd sampleEnv ["cd".toList] 1 sampleWorld
      = { sampleWorld with trace := sampleWorld.trace ++ [Event.error] } :=
  ⟨rfl, by decide,
    (changedirectory_no_home sampleEnv rfl ["cd".toList] sampleWorld).2 (by decide)⟩

/-- C19: on a sequence with no token equal to `">"`, `getredirect` returns 0,
reports `numtokens` command tokens and the redirection flag 0, and leaves the
two targets alone. -/
theorem getredirect_no_redirection (tokens : List Str) (numtokens : Int) (r : Redirect)
    (file_szs : Nat)
    (hnone : ∀ i : Nat, (i : Int) < numtokens → slot tokens i ≠ REDIRECT) :
    getredirect tokens numtokens r file_szs =
      (0, { numcmdtokens := numtokens, redirect_output := 0,
            outfile := r.outfile, errfile := r.errfile }) := by
  rw [getredirect_plain tokens numtokens r file_szs hnone]

/-- Witness for C19: the sequence `ls -l`. -/
theorem getredirect_no_redirection_witness :
    (∀ i : Nat, (i : Int) < 2 → slot ["ls".toList, "-l".toList] i ≠ REDIRECT) ∧
    getredirect ["ls".toList, "-l".toList] 2
        { numcmdtokens := 7, redirect_output := 7, outfile := [], errfile := [] } MAX_LINE_LEN
      = (0, { numcmdtokens := 2, redirect_output := 0, outfile := [], errfile := [] }) := by
  have hnone : ∀ i : Nat, (i : Int) < 2 → slot ["ls".toList, "-l".toList] i ≠ REDIRECT := by
    intro i hi
    have hi2 : i < 2 := by omega
    interval_cases i <;> decide
  exact ⟨hnone, getredirect_no_redirection _ 2 _ MAX_LINE_LEN hnone⟩

/-- C20: in every state a session reaches from startup, each slot of the search
path below `size` holds a non-empty string without space or tab, so `buildpath`
is never given an empty directory (`dirlen > 0`) during resolution. -/
theorem session_path_entries (cwd : Str) (steps : List (Env × Int × Str)) (sh : Shell)
    (h : session (startup cwd) steps = some sh) :
    (∀ i : Nat, (i : Int) < sh.world.path.size →
      slot sh.world.path.pathdirs i ≠ [] ∧
      ' ' ∉ slot sh.world.path.pathdirs i ∧ '\t' ∉ slot sh.world.path.pathdirs i ∧
      0 < (slot sh.world.path.pathdirs i).length) ∧
    (∀ d ∈ sh.world.path.entries, d ≠ [] ∧ ' ' ∉ d ∧ '\t' ∉ d) := by
  obtain ⟨_, hpd, hsz, hent⟩ := session_wellFormed steps (startup cwd) sh (startup_wellFormed cwd) h
  have hclean : ∀ d ∈ sh.world.path.entries, d ≠ [] ∧ ' ' ∉ d ∧ '\t' ∉ d := by
    intro d hd
    obtain ⟨hne, hc⟩ := hent d hd
    exact ⟨hne, fun hsp => hc ' ' hsp (by simp [ARG_DELIM]),
      fun htab => hc '\t' htab (by simp [ARG_DELIM])⟩
  refine ⟨?_, hclean⟩
  intro i hi
  have hlen : i < sh.world.path.entries.length := by
    simp only [path_t.entries, List.length_take, hpd]
    omega
  have hslot := slot_of_take sh.world.path.pathdirs sh.world.path.entries
    sh.world.path.size.toNat rfl i hlen
  obtain ⟨hne, hsp, htab⟩ := hclean _ (List.get_mem sh.world.path.entries i hlen)
  rw [hslot]
  exact ⟨hne, hsp, htab, List.length_pos.2 hne⟩

set_option maxRecDepth 100000 in
/-- Witness for C20: the session of the two lines `path /a /b` and `ls`. -/
theorem session_path_entries_witness :
    ∃ sh, session (startup ['/'])
        [(sampleEnv, 0, "path /a /b".toList), (sampleEnv, 0, "ls".toList)] = some sh ∧
      sh.world.path.entries = ["/a".toList, "/b".toList] ∧
      ∀ d ∈ sh.world.path.entries, d ≠ [] ∧ ' ' ∉ d ∧ '\t' ∉ d := by
  have hs : (session (startup ['/'])
      [(sampleEnv, 0, "path /a /b".toList), (sampleEnv, 0, "ls".toList)]).isSome = true := by
    decide
  have hentries : ((session (startup ['/'])
      [(sampleEnv, 0, "path /a /b".toList), (sampleEnv, 0, "ls".toList)]).map
        (fun sh => sh.world.path.entries)) = some ["/a".toList, "/b".toList] := by
    decide
  obtain ⟨sh, hsh⟩ := Option.isSome_iff_exists.1 hs
  refine ⟨sh, hsh, ?_, (session_path_entries ['/'] _ sh hsh).2⟩
  rw [hsh] at hentries
  simpa using hentries

end Whoosh

